import Mathlib

/-!
Verification development for the Teams/LiveKit voice-bridge repository.

The JavaScript sources are shallowly embedded as Lean definitions:

* `AudioProcessingEngine` (demo-server.js): `decodeAudioData`, `encodeAudioData`,
  `detectVoiceActivity`, `getAdaptiveThreshold`, `updateVADBuffer`.
* `TeamsLiveKitBridge` (TeamsLiveKitBridge.js): `handleLiveKitAudio`,
  `forwardAudioToTeams`, `findConnectionsByRoom`.
* `MeetingConversationManager` (MediaBotController.js, second class):
  meeting lifecycle and the turn-taking state machine.

JavaScript numbers that can become NaN are modelled as `Option ℚ` with `none`
playing the role of NaN; the NaN-propagation rules of the JS arithmetic and
comparison operators are modelled by the `js*` helpers below.  Timestamps
(`new Date()`, `Date.now()`) are modelled as natural-number milliseconds passed
in explicitly; date subtraction is integer subtraction.  JS `Map`s are modelled
as association lists with JS `Map.set` semantics (update in place, append if
absent).  Thrown exceptions are modelled with `Except`.
-/

namespace Teams

/-! ## Association lists modelling JS `Map` -/

/-- The `Map.get`: first binding of the key, if any. -/
def alGet {α : Type} : List (String × α) → String → Option α
  | [], _ => none
  | (k2, v) :: t, k => if k2 = k then some v else alGet t k

/-- The `Map.set`: replace the binding in place if the key is present, else append
(JS `Map` keeps insertion order and updates in place). -/
def alSet {α : Type} : List (String × α) → String → α → List (String × α)
  | [], k, v => [(k, v)]
  | (k2, w) :: t, k, v => if k2 = k then (k, v) :: t else (k2, w) :: alSet t k v

theorem alGet_alSet {α : Type} (l : List (String × α)) (k j : String) (v : α) :
    alGet (alSet l k v) j = if k = j then some v else alGet l j := by
  induction l with
  | nil =>
    by_cases h : k = j <;> simp [alSet, alGet, h]
  | cons hd tl ih =>
    obtain ⟨k2, w⟩ := hd
    by_cases h2 : k2 = k
    · subst h2
      by_cases h : k2 = j <;> simp [alSet, alGet, h]
    · by_cases h : k2 = j
      · subst h
        have : ¬ k = k2 := fun he => h2 he.symm
        simp [alSet, alGet, h2, this]
      · simp [alSet, alGet, h2, h, ih]

theorem alSet_mem {α : Type} {l : List (String × α)} {k : String} {v : α}
    {kv : String × α} (h : kv ∈ alSet l k v) : kv = (k, v) ∨ kv ∈ l := by
  induction l with
  | nil => simpa [alSet] using h
  | cons hd tl ih =>
    obtain ⟨k2, w⟩ := hd
    by_cases h2 : k2 = k
    · simp [alSet, h2] at h
      rcases h with h | h
      · exact Or.inl (by simp [h])
      · exact Or.inr (List.mem_cons_of_mem _ h)
    · simp [alSet, h2] at h
      rcases h with h | h
      · exact Or.inr (by simp [h])
      · rcases ih h with h3 | h3
        · exact Or.inl h3
        · exact Or.inr (List.mem_cons_of_mem _ h3)

theorem alGet_mem {α : Type} {l : List (String × α)} {k : String} {v : α}
    (h : alGet l k = some v) : (k, v) ∈ l := by
  induction l with
  | nil => simp [alGet] at h
  | cons hd tl ih =>
    obtain ⟨k2, w⟩ := hd
    by_cases h2 : k2 = k
    · subst h2
      simp [alGet] at h
      simp [h]
    · simp [alGet, h2] at h
      exact List.mem_cons_of_mem _ (ih h)

/-! ## NaN-aware JS arithmetic (`none` = NaN) -/

def jsAdd : Option ℚ → Option ℚ → Option ℚ
  | some a, some b => some (a + b)
  | _, _ => none

def jsSub : Option ℚ → Option ℚ → Option ℚ
  | some a, some b => some (a - b)
  | _, _ => none

/-- JS division.  In the embedded code a zero divisor occurs only together with
a zero dividend (`0/0 = NaN`, empty frame), so division by zero is mapped to
`none`. -/
def jsDiv : Option ℚ → Option ℚ → Option ℚ
  | some a, some b => if b = 0 then none else some (a / b)
  | _, _ => none

/-- The `Math.max` returns NaN if any argument is NaN. -/
def jsMax : Option ℚ → Option ℚ → Option ℚ
  | some a, some b => some (max a b)
  | _, _ => none

/-- The `Math.min` returns NaN if any argument is NaN. -/
def jsMin : Option ℚ → Option ℚ → Option ℚ
  | some a, some b => some (min a b)
  | _, _ => none

/-- JS `>`: any comparison involving NaN is false. -/
def jsGt (x y : Option ℚ) : Bool :=
  match x, y with
  | some a, some b => decide (b < a)
  | _, _ => false

theorem jsSub_none_left (x : Option ℚ) : jsSub none x = none := by cases x <;> rfl
theorem jsAdd_none_left (x : Option ℚ) : jsAdd none x = none := by cases x <;> rfl
theorem jsDiv_none_left (x : Option ℚ) : jsDiv none x = none := by cases x <;> rfl
theorem jsMax_none_right (x : Option ℚ) : jsMax x none = none := by cases x <;> rfl
theorem jsMin_none_right (x : Option ℚ) : jsMin x none = none := by cases x <;> rfl
theorem jsGt_none_left (x : Option ℚ) : jsGt none x = false := by cases x <;> rfl

theorem jsDiv_some_some (a b : ℚ) (hb : b ≠ 0) :
    jsDiv (some a) (some b) = some (a / b) := by simp [jsDiv, hb]

/-! ## Frame codec (demo-server.js `decodeAudioData` / `encodeAudioData`)

A Node `Buffer` is a view of `length` bytes starting at `byteOffset` inside a
backing `ArrayBuffer` (`backing`, a byte list).  `Buffer.from` does not
guarantee that the view owns its backing store: allocations below Node's pool
threshold (4 KiB — which covers this server's typical audio frames, e.g. the
base64 transport path) are carved out of a shared 8 KiB pool, giving a
non-zero `byteOffset` and a `backing` that extends past the view.
`decodeAudioData` builds the typed view with the buffer's own offset
(`new Int16Array(buffer.buffer, buffer.byteOffset, buffer.length / 2)`); the
element count goes through `ToIndex`, which truncates, and the constructor
throws a `RangeError` when the offset is not a multiple of the element width
or the view would overrun the `ArrayBuffer` (error text abbreviated here).
`encodeAudioData` is `Buffer.from(audioBuffer.buffer)`: it serialises the
WHOLE backing `ArrayBuffer`, ignoring the view's offset and length. -/

structure JSBuffer where
  backing : List ℕ
  byteOffset : ℕ
  length : ℕ
deriving DecidableEq

/-- The bytes the `Buffer` view exposes (the transport payload it carries). -/
def JSBuffer.bytes (b : JSBuffer) : List ℕ :=
  (b.backing.drop b.byteOffset).take b.length

/-- A `Buffer` from an exactly-owning allocation: the view is the whole
backing store. -/
def exactBuffer (payload : List ℕ) : JSBuffer :=
  ⟨payload, 0, payload.length⟩

/-- A `Buffer` carved out of a pool: the view exposes `payload`, but the
backing `ArrayBuffer` also holds the pool bytes before and after it. -/
def pooledBuffer (pre payload post : List ℕ) : JSBuffer :=
  ⟨pre ++ payload ++ post, pre.length, payload.length⟩

structure TypedView where
  backing : List ℕ
  byteOffset : ℕ
  viewLength : ℕ
deriving DecidableEq

/-- The `format.toLowerCase()` (ASCII lowering, structurally recursive over the
character list so that it evaluates). -/
def lowerString (s : String) : String := String.mk (s.data.map Char.toLower)

/-- Sample width in bytes for each supported format string (after
`format.toLowerCase()`); `none` for unsupported formats. -/
def bytesPerSample (format : String) : Option ℕ :=
  if lowerString format = "pcm16" then some 2
  else if lowerString format = "pcm32" then some 4
  else if lowerString format = "float32" then some 4
  else none

def decodeAudioData (audioData : JSBuffer) (format : String) : Except String TypedView :=
  match bytesPerSample format with
  | some w =>
      if audioData.byteOffset % w = 0 ∧
          audioData.byteOffset + audioData.length / w * w ≤ audioData.backing.length then
        Except.ok ⟨audioData.backing, audioData.byteOffset, audioData.length / w⟩
      else Except.error ("Failed to decode audio data: RangeError")
  | none => Except.error ("Failed to decode audio data: Unsupported audio format: " ++ format)

def encodeAudioData (audioBuffer : TypedView) (format : String) : Except String (List ℕ) :=
  match bytesPerSample format with
  | some _ => Except.ok audioBuffer.backing
  | none => Except.error ("Failed to encode audio data: Unsupported audio format for encoding: " ++ format)

/-- Little-endian signed 16-bit sample from two bytes. -/
def int16OfBytes (lo hi : ℕ) : ℤ :=
  let v : ℕ := lo % 256 + 256 * (hi % 256)
  if v < 32768 then (v : ℤ) else (v : ℤ) - 65536

/-- Sample values an `Int16Array` view exposes (read semantics of the decoded
buffer; `encodeAudioData` never consults these). -/
def pcm16Samples (v : TypedView) : List ℤ :=
  (List.range v.viewLength).map fun i =>
    int16OfBytes (v.backing.getD (v.byteOffset + 2 * i) 0)
      (v.backing.getD (v.byteOffset + 2 * i + 1) 0)

/-! ## Voice activity detection (demo-server.js) -/

structure VADSample where
  energyDb : Option ℚ
  voiceDetected : Bool
  timestamp : ℕ
deriving DecidableEq

structure AudioConfig where
  voiceActivityThreshold : ℤ
deriving DecidableEq

structure VADResult where
  voiceDetected : Bool
  confidence : Option ℚ
  energyDb : Option ℚ
  threshold : Option ℚ
deriving DecidableEq

/-- The `getAdaptiveThreshold(meetingId, currentEnergyDb)`: the meeting's rolling
window is passed in directly; `currentEnergyDb` is unused in the source body
and kept for fidelity. -/
def getAdaptiveThreshold (vadBuffer : List VADSample) (_currentEnergyDb : Option ℚ)
    (cfg : AudioConfig) : Option ℚ :=
  if vadBuffer.length < 10 then
    -- Use static threshold if not enough history
    some (-40 + ((cfg.voiceActivityThreshold : ℚ) - 30) * 2)
  else
    let silentSamples := vadBuffer.filter fun sample => !sample.voiceDetected
    if silentSamples.length > 0 then
      let avgNoise := jsDiv (silentSamples.foldl (fun sum sample => jsAdd sum sample.energyDb) (some 0))
        (some (silentSamples.length : ℚ))
      jsAdd avgNoise (some 10) -- Threshold 10dB above noise floor
    else
      some (-40) -- Fallback threshold

/-- The `updateVADBuffer`: push the sample and trim to the last 100 entries. -/
def updateVADBuffer (buffer : List VADSample) (energyDb : Option ℚ)
    (voiceDetected : Bool) (now : ℕ) : List VADSample :=
  let b := buffer ++ [⟨energyDb, voiceDetected, now⟩]
  if b.length > 100 then b.drop (b.length - 100) else b

/-- The `detectVoiceActivity(audioBuffer, meetingId)`.  `audioBuffer` is the list
of decoded sample values; the meeting's rolling window is passed in and the
updated window returned.  `dbFn` abstracts the strictly numeric map
`x ↦ 20·log10(√x + 1e-10)` applied to the mean square energy; it is only ever
applied to non-NaN values, NaN (`none`) propagates around it just as in JS.
For an empty frame `sumSquares / length` is `0/0`, i.e. NaN. -/
def detectVoiceActivity (dbFn : ℚ → ℚ) (audioBuffer : List ℚ)
    (vadBuffer : List VADSample) (cfg : AudioConfig) (now : ℕ) :
    VADResult × List VADSample :=
  let sumSquares : ℚ := audioBuffer.foldl (fun acc s => acc + (s / 32768) * (s / 32768)) 0
  let meanSquare : Option ℚ := jsDiv (some sumSquares) (some (audioBuffer.length : ℚ))
  let energyDb : Option ℚ := meanSquare.map dbFn
  let threshold : Option ℚ := getAdaptiveThreshold vadBuffer energyDb cfg
  let voiceDetected : Bool := jsGt energyDb threshold
  let confidence : Option ℚ :=
    jsMin (some 1) (jsMax (some 0) (jsDiv (jsAdd (jsSub energyDb threshold) (some 20)) (some 40)))
  let newBuffer := updateVADBuffer vadBuffer energyDb voiceDetected now
  (⟨voiceDetected, confidence, energyDb, threshold⟩, newBuffer)

/-- The clamped linear confidence map of the spec. -/
def confidenceFormula (energyDb threshold : ℚ) : ℚ :=
  min 1 (max 0 ((energyDb - threshold + 20) / 40))

/-- The round trip does hold for a buffer that exactly owns its backing store
(`byteOffset = 0`, view covering the whole `ArrayBuffer`): the failure
isolated by the C4 theorem below is precisely the ignored offset and length
in `encodeAudioData`. -/
theorem encode_decode_exact_ownership (payload : List ℕ) (format : String)
    (hfmt : format = "pcm16" ∨ format = "float32") :
    Except.bind (decodeAudioData (exactBuffer payload) format)
        (fun v => encodeAudioData v format) = Except.ok payload := by
  have h2 : 0 % 2 = 0 ∧ 0 + payload.length / 2 * 2 ≤ payload.length :=
    ⟨rfl, by simpa using Nat.div_mul_le_self payload.length 2⟩
  have h4 : 0 % 4 = 0 ∧ 0 + payload.length / 4 * 4 ≤ payload.length :=
    ⟨rfl, by simpa using Nat.div_mul_le_self payload.length 4⟩
  rcases hfmt with h | h <;> subst h
  · show Except.bind
        (if 0 % 2 = 0 ∧ 0 + payload.length / 2 * 2 ≤ payload.length
          then Except.ok (⟨payload, 0, payload.length / 2⟩ : TypedView)
          else Except.error ("Failed to decode audio data: RangeError"))
        (fun v => encodeAudioData v ("pcm16")) = Except.ok payload
    rw [if_pos h2]; rfl
  · show Except.bind
        (if 0 % 4 = 0 ∧ 0 + payload.length / 4 * 4 ≤ payload.length
          then Except.ok (⟨payload, 0, payload.length / 4⟩ : TypedView)
          else Except.error ("Failed to decode audio data: RangeError"))
        (fun v => encodeAudioData v ("float32")) = Except.ok payload
    rw [if_pos h4]; rfl

/-- The decoded view reads the same pcm16 samples whether the buffer exactly
owns its backing store or sits inside a pool at an aligned offset:
`decodeAudioData` handles `byteOffset` correctly, so the round-trip failure
is entirely `encodeAudioData` ignoring the view. -/
theorem pcm16Samples_pool_agnostic (pre payload post : List ℕ)
    (hpre : pre.length % 2 = 0) :
    Except.map pcm16Samples (decodeAudioData (pooledBuffer pre payload post) ("pcm16")) =
      Except.map pcm16Samples (decodeAudioData (exactBuffer payload) ("pcm16")) := by
  have hmul : payload.length / 2 * 2 ≤ payload.length := Nat.div_mul_le_self _ _
  have hlen : pre.length + payload.length / 2 * 2 ≤ ((pre ++ payload) ++ post).length := by
    rw [List.length_append, List.length_append]; omega
  have hg : ∀ k, k < payload.length →
      ((pre ++ payload) ++ post).getD (pre.length + k) 0 = payload.getD k 0 := by
    intro k hk
    rw [List.append_assoc]
    rw [List.getD_append_right pre (payload ++ post) 0 (pre.length + k) (Nat.le_add_right _ _)]
    rw [Nat.add_sub_cancel_left]
    exact List.getD_append payload post 0 k hk
  show Except.map pcm16Samples
      (if pre.length % 2 = 0 ∧
          pre.length + payload.length / 2 * 2 ≤ ((pre ++ payload) ++ post).length
        then Except.ok (⟨(pre ++ payload) ++ post, pre.length, payload.length / 2⟩ : TypedView)
        else Except.error ("Failed to decode audio data: RangeError")) =
    Except.map pcm16Samples
      (if 0 % 2 = 0 ∧ 0 + payload.length / 2 * 2 ≤ payload.length
        then Except.ok (⟨payload, 0, payload.length / 2⟩ : TypedView)
        else Except.error ("Failed to decode audio data: RangeError"))
  rw [if_pos ⟨hpre, hlen⟩, if_pos ⟨rfl, by omega⟩]
  show Except.ok (pcm16Samples ⟨(pre ++ payload) ++ post, pre.length, payload.length / 2⟩) =
    Except.ok (pcm16Samples ⟨payload, 0, payload.length / 2⟩)
  refine congrArg Except.ok ?_
  simp only [pcm16Samples]
  refine List.map_congr_left fun i hi => ?_
  rw [List.mem_range] at hi
  have e1 := hg (2 * i) (by omega)
  have e2 := hg (2 * i + 1) (by omega)
  have ha : pre.length + 2 * i + 1 = pre.length + (2 * i + 1) := by omega
  rw [ha, e1, e2, Nat.zero_add]

/-- C4: the claimed bit-for-bit round trip fails in the program.
`decodeAudioData` builds the typed view with the buffer's `byteOffset`, but
`encodeAudioData` serialises the whole backing `ArrayBuffer`
(`Buffer.from(audioBuffer.buffer)`), so whenever the buffer does not exactly
own its backing store — Node's normal pooled allocation for this server's
sub-4 KiB frames — the round trip returns the pool contents, not the payload.
Concretely: a width-aligned pcm16 payload `[1,2,3,4]` carried by a pooled
buffer round-trips to the surrounding pool bytes as well. -/
theorem c4_codec_pool_bug :
    (pooledBuffer [9, 9] [1, 2, 3, 4] [7, 7]).bytes = [1, 2, 3, 4] ∧
    2 ∣ (pooledBuffer [9, 9] [1, 2, 3, 4] [7, 7]).length ∧
    Except.bind (decodeAudioData (pooledBuffer [9, 9] [1, 2, 3, 4] [7, 7]) ("pcm16"))
        (fun v => encodeAudioData v ("pcm16")) =
      Except.ok [9, 9, 1, 2, 3, 4, 7, 7] ∧
    ([9, 9, 1, 2, 3, 4, 7, 7] : List ℕ) ≠ [1, 2, 3, 4] :=
  ⟨rfl, ⟨2, rfl⟩, rfl, by decide⟩

/-- C3: `detectVoiceActivity` returns `voiceDetected = true` iff the computed
`energyDb` strictly exceeds the computed `threshold`, and returns
`confidence = (energyDb − threshold + 20)/40` clamped to `[0,1]`; for a fixed
threshold this clamped map is monotonically non-decreasing in `energyDb`. -/
theorem c3_vad_decision (dbFn : ℚ → ℚ) (audioBuffer : List ℚ) (vadBuffer : List VADSample)
    (cfg : AudioConfig) (now : ℕ) (e t : ℚ)
    (he : (detectVoiceActivity dbFn audioBuffer vadBuffer cfg now).1.energyDb = some e)
    (ht : (detectVoiceActivity dbFn audioBuffer vadBuffer cfg now).1.threshold = some t) :
    ((detectVoiceActivity dbFn audioBuffer vadBuffer cfg now).1.voiceDetected = true ↔ t < e)
    ∧ (detectVoiceActivity dbFn audioBuffer vadBuffer cfg now).1.confidence =
        some (confidenceFormula e t)
    ∧ ∀ e1 e2 : ℚ, e1 ≤ e2 → confidenceFormula e1 t ≤ confidenceFormula e2 t := by
  simp only [detectVoiceActivity] at he ht ⊢
  rw [he] at ht ⊢
  rw [ht]
  refine ⟨?_, ?_, ?_⟩
  · simp [jsGt]
  · have h40 : (40 : ℚ) ≠ 0 := by norm_num
    simp [jsSub, jsAdd, jsDiv, jsMax, jsMin, h40, confidenceFormula]
  · intro e1 e2 h12
    unfold confidenceFormula
    refine min_le_min le_rfl (max_le_max le_rfl ?_)
    linarith

/-- Witness for C3 at a one-sample silent frame against the static threshold
(empty window). -/
theorem c3_vad_decision_witness :
    ((detectVoiceActivity id [0] [] ⟨30⟩ 0).1.voiceDetected = true ↔ (-40 : ℚ) < 0)
    ∧ (detectVoiceActivity id [0] [] ⟨30⟩ 0).1.confidence =
        some (confidenceFormula 0 (-40))
    ∧ confidenceFormula (-1) (-40) ≤ confidenceFormula 0 (-40) :=
  ⟨(c3_vad_decision id [0] [] ⟨30⟩ 0 0 (-40)
      (by norm_num [detectVoiceActivity, jsDiv])
      (by norm_num [detectVoiceActivity, getAdaptiveThreshold])).1,
   (c3_vad_decision id [0] [] ⟨30⟩ 0 0 (-40)
      (by norm_num [detectVoiceActivity, jsDiv])
      (by norm_num [detectVoiceActivity, getAdaptiveThreshold])).2.1,
   (c3_vad_decision id [0] [] ⟨30⟩ 0 0 (-40)
      (by norm_num [detectVoiceActivity, jsDiv])
      (by norm_num [detectVoiceActivity, getAdaptiveThreshold])).2.2 (-1) 0 (by norm_num)⟩

/-- C6: on an empty (zero-sample) frame `detectVoiceActivity` raises no
exception; the mean square energy is `0/0` (NaN), so it returns
`voiceDetected = false` — but `confidence` is NaN (`none`), not the safe
default `0` claimed by the spec: the catch-all fallback is never reached
because JS division by zero does not throw. -/
theorem c6_empty_frame (dbFn : ℚ → ℚ) (vadBuffer : List VADSample) (cfg : AudioConfig) (now : ℕ) :
    (detectVoiceActivity dbFn [] vadBuffer cfg now).1.voiceDetected = false
    ∧ (detectVoiceActivity dbFn [] vadBuffer cfg now).1.confidence = none
    ∧ (detectVoiceActivity dbFn [] vadBuffer cfg now).1.energyDb = none := by
  simp [detectVoiceActivity, jsDiv, jsSub_none_left, jsAdd_none_left,
    jsMax_none_right, jsMin_none_right, jsGt_none_left]

/-- C7: with fewer than 10 window samples `getAdaptiveThreshold` returns the
static configuration-derived fallback `-40 + (voiceActivityThreshold - 30)·2`;
with at least 10 samples and at least one non-speech entry it returns the mean
`energyDb` of the non-speech entries plus 10 dB. -/
theorem c7_threshold (vadBuffer : List VADSample) (cur : Option ℚ) (cfg : AudioConfig) :
    (vadBuffer.length < 10 →
      getAdaptiveThreshold vadBuffer cur cfg =
        some (-40 + ((cfg.voiceActivityThreshold : ℚ) - 30) * 2))
    ∧ (∀ es : List ℚ, 10 ≤ vadBuffer.length →
        (vadBuffer.filter fun s => !s.voiceDetected).map (fun s => s.energyDb) = es.map some →
        es ≠ [] →
        getAdaptiveThreshold vadBuffer cur cfg = some (es.sum / (es.length : ℚ) + 10)) := by
  constructor
  · intro h
    simp [getAdaptiveThreshold, h]
  · intro es hlen hmap hne
    have hnotlt : ¬ vadBuffer.length < 10 := by omega
    have hslen : (vadBuffer.filter fun s => !s.voiceDetected).length = es.length := by
      have h1 := congrArg List.length hmap
      simpa using h1
    have hpos : 0 < (vadBuffer.filter fun s => !s.voiceDetected).length := by
      rw [hslen]
      exact List.length_pos.mpr hne
    have hfoldgen : ∀ (l : List ℚ) (q : ℚ), (l.map some).foldl jsAdd (some q) = some (q + l.sum) := by
      intro l
      induction l with
      | nil => intro q; simp [jsAdd]
      | cons a tl ih => intro q; simp [jsAdd, ih, add_assoc]
    have hfold : (vadBuffer.filter fun s => !s.voiceDetected).foldl
        (fun sum sample => jsAdd sum sample.energyDb) (some 0) = some es.sum := by
      have h1 : (vadBuffer.filter fun s => !s.voiceDetected).foldl
          (fun sum sample => jsAdd sum sample.energyDb) (some 0)
          = ((vadBuffer.filter fun s => !s.voiceDetected).map (fun s => s.energyDb)).foldl
              jsAdd (some 0) := by
        rw [List.foldl_map]
      rw [h1, hmap]
      simpa using hfoldgen es 0
    have hcast : ((es.length : ℕ) : ℚ) ≠ 0 := by
      have : es.length ≠ 0 := fun h0 => hne (List.length_eq_zero.mp h0)
      exact_mod_cast this
    simp only [getAdaptiveThreshold, if_neg hnotlt, gt_iff_lt, hfold, hslen]
    rw [if_pos (List.length_pos.mpr hne), jsDiv_some_some _ _ hcast]
    rfl

/-- Ten-sample rolling window with exactly one non-speech entry at −50 dB. -/
def vadWindowEx : List VADSample :=
  [⟨some 0, true, 0⟩, ⟨some 0, true, 0⟩, ⟨some 0, true, 0⟩, ⟨some 0, true, 0⟩,
   ⟨some 0, true, 0⟩, ⟨some 0, true, 0⟩, ⟨some 0, true, 0⟩, ⟨some 0, true, 0⟩,
   ⟨some 0, true, 0⟩, ⟨some (-50), false, 0⟩]

/-- Witness for C7: an empty window takes the static fallback, and a 10-sample
window with one non-speech entry at −50 dB yields −50 + 10. -/
theorem c7_threshold_witness :
    getAdaptiveThreshold [] none ⟨30⟩ = some (-40 + (((30 : ℤ) : ℚ) - 30) * 2)
    ∧ getAdaptiveThreshold vadWindowEx none ⟨30⟩ =
        some (List.sum [(-50 : ℚ)] / ((List.length [(-50 : ℚ)] : ℕ) : ℚ) + 10) :=
  ⟨(c7_threshold [] none ⟨30⟩).1 (by decide),
   (c7_threshold vadWindowEx none ⟨30⟩).2 [(-50)] (by decide) (by rfl) (by decide)⟩

/-! ## Connection router (TeamsLiveKitBridge.js)

`ws.readyState === WebSocket.OPEN` is modelled by the boolean `wsOpen`; a
`sendMessage` that actually transmits is modelled by collecting the
(connection, message) pairs written to open channels.  JS falsy checks on the
string payload fields (`!audioData || !roomName`) treat both a missing field
and the empty string as falsy. -/

structure BridgeConnection where
  wsOpen : Bool
  roomName : Option String
  meetingId : Option String
  participantIdentity : Option String
  joinedAt : ℕ
deriving DecidableEq

structure BridgeState where
  connections : List (String × BridgeConnection)
deriving DecidableEq

/-- JS truthiness of an optional string (`undefined` and `""` are falsy). -/
def strTruthy : Option String → Bool
  | some s => !s.isEmpty
  | none => false

def findConnectionsByRoom (st : BridgeState) (roomName : String) : List BridgeConnection :=
  (st.connections.map fun kv => kv.2).filter fun c => c.roomName = some roomName

structure AudioForwardMessage where
  audioData : String
  roomName : String
  participantId : Option String
  format : String
  timestamp : ℕ
deriving DecidableEq

/-- The `forwardAudioToTeams(audioData, roomName, participantId)`: returns the list
of (recipient, message) sends actually performed.  Only connections whose
channel is open receive the message (`sendMessage` re-checks the same
condition); a room with no connections returns after the warning log with no
sends, and there is no retry. -/
def forwardAudioToTeams (st : BridgeState) (audioData roomName : String)
    (participantId : Option String) (now : ℕ) :
    List (BridgeConnection × AudioForwardMessage) :=
  let roomConnections := findConnectionsByRoom st roomName
  if roomConnections.length = 0 then
    []
  else
    let audioMessage : AudioForwardMessage := ⟨audioData, roomName, participantId, "pcm16", now⟩
    (roomConnections.filter fun c => c.wsOpen).map fun c => (c, audioMessage)

structure LiveKitAudioPayload where
  audioData : Option String
  roomName : Option String
  participantId : Option String
  format : Option String
deriving DecidableEq

structure LiveKitAudioResult where
  success : Bool
  error : Option String
  roomName : Option String
  participantId : Option String
  forwardedToTeams : Bool
deriving DecidableEq

/-- The `handleLiveKitAudio(ws, payload, messageId)`: missing fields throw, the
catch converts that into `{success:false, error}`; otherwise audio is
forwarded to the room and the result unconditionally reports
`forwardedToTeams: true` (there is no recipient count in the result). -/
def handleLiveKitAudio (st : BridgeState) (payload : LiveKitAudioPayload) (now : ℕ) :
    LiveKitAudioResult × List (BridgeConnection × AudioForwardMessage) :=
  if strTruthy payload.audioData && strTruthy payload.roomName then
    let ad := payload.audioData.getD ("")
    let rn := payload.roomName.getD ("")
    let sends := forwardAudioToTeams st ad rn payload.participantId now
    (⟨true, none, some rn, payload.participantId, true⟩, sends)
  else
    (⟨false, some ("Missing required fields: audioData, roomName"), none, none, false⟩, [])

/-- C9 counterexample: routing audio for a room with zero open connections
performs zero sends and returns no error, but the handler's result does not
report zero forwarded recipients — it carries no recipient count and
unconditionally reports `forwardedToTeams = true`. -/
theorem c9_routing_cex :
    (handleLiveKitAudio ⟨[]⟩ ⟨some ("AA"), some ("room1"), some ("p"), none⟩ 0).2 = []
    ∧ (handleLiveKitAudio ⟨[]⟩ ⟨some ("AA"), some ("room1"), some ("p"), none⟩ 0).1.success = true
    ∧ (handleLiveKitAudio ⟨[]⟩ ⟨some ("AA"), some ("room1"), some ("p"), none⟩ 0).1.forwardedToTeams
        = true :=
  ⟨rfl, rfl, rfl⟩

/-- C9 (amended): for every routing request with non-empty `audioData` and
`roomName`, the router returns success with no error and never retries; the
recipients actually sent to are exactly the room's open connections — in
particular zero open connections means zero sends — while the result still
reports `forwardedToTeams = true` and contains no recipient count. -/
theorem c9_routing (st : BridgeState) (ad rn : String) (pid fmt : Option String) (now : ℕ)
    (had : ad ≠ "") (hrn : rn ≠ "") :
    (handleLiveKitAudio st ⟨some ad, some rn, pid, fmt⟩ now).1.success = true
    ∧ (handleLiveKitAudio st ⟨some ad, some rn, pid, fmt⟩ now).1.error = none
    ∧ (handleLiveKitAudio st ⟨some ad, some rn, pid, fmt⟩ now).1.forwardedToTeams = true
    ∧ (handleLiveKitAudio st ⟨some ad, some rn, pid, fmt⟩ now).2.map (fun s => s.1) =
        (findConnectionsByRoom st rn).filter (fun c => c.wsOpen) := by
  have hmapfst : ∀ (l : List BridgeConnection) (msg : AudioForwardMessage),
      (l.map fun c => (c, msg)).map (fun s => s.1) = l := by
    intro l msg
    induction l with
    | nil => rfl
    | cons a tl ih => simp [ih]
  have hta : strTruthy (some ad) = true := by
    simp [strTruthy]
    exact Bool.eq_false_iff.mpr fun h => had ((String.isEmpty_iff ad).mp h)
  have htr : strTruthy (some rn) = true := by
    simp [strTruthy]
    exact Bool.eq_false_iff.mpr fun h => hrn ((String.isEmpty_iff rn).mp h)
  simp only [handleLiveKitAudio, hta, htr, Bool.and_self, if_pos]
  refine ⟨trivial, trivial, trivial, ?_⟩
  simp only [Option.getD_some, forwardAudioToTeams]
  by_cases h : (findConnectionsByRoom st rn).length = 0
  · rw [List.length_eq_zero] at h
    simp [h]
  · simp only [if_neg h]
    exact hmapfst _ _

/-- A bridge state whose only connection in `room1` is not open. -/
def bridgeStateEx : BridgeState :=
  ⟨[(("conn1"), ⟨false, some ("room1"), none, none, 0⟩)]⟩

/-- Witness for C9 (amended) at a room whose single connection is closed:
no error, zero sends, `forwardedToTeams` still `true`. -/
theorem c9_routing_witness :
    (handleLiveKitAudio bridgeStateEx ⟨some ("AA"), some ("room1"), none, none⟩ 5).1.success = true
    ∧ (handleLiveKitAudio bridgeStateEx ⟨some ("AA"), some ("room1"), none, none⟩ 5).1.error = none
    ∧ (handleLiveKitAudio bridgeStateEx ⟨some ("AA"), some ("room1"), none, none⟩ 5).1.forwardedToTeams
        = true
    ∧ (handleLiveKitAudio bridgeStateEx ⟨some ("AA"), some ("room1"), none, none⟩ 5).2.map
        (fun s => s.1) =
        (findConnectionsByRoom bridgeStateEx ("room1")).filter (fun c => c.wsOpen) :=
  c9_routing bridgeStateEx ("AA") ("room1") none none 5 (by decide) (by decide)

/-! ## Turn-taking state machine (MediaBotController.js, `MeetingConversationManager`)

Timestamps are milliseconds (`ℕ`); `new Date(a) - new Date(b)` is `(a:ℤ)-(b:ℤ)`.
A `Turn` has `endTime = none` while open (the source's current turn object has
no `endTime` property until it is completed).  The `0.7` confidence gate is
written `Rat.divInt 7 10`.  Each operation receives the single `now` used for
all its `new Date()` / `Date.now()` calls.  The `updateMeeting` flags of the
source have no observable effect (they re-`set` the same mutated object) and
are dropped.  Thrown errors are `Except.error` with the source's wrapped
message; every operation performs no state change when it throws, matching the
source, where all throws happen before the first mutation. -/

inductive PStatus where
  | active
  | left
deriving DecidableEq

inductive MStatus where
  | active
  | ended
deriving DecidableEq

structure Turn where
  participantId : String
  startTime : ℕ
  confidence : ℚ
  turnId : String
  endTime : Option ℕ
  duration : Option ℤ
deriving DecidableEq

structure Participant where
  id : String
  displayName : String
  email : Option String
  role : String
  joinTime : ℕ
  lastActivity : ℕ
  status : PStatus
  speakingTime : ℤ
  turnCount : ℕ
  isMuted : Bool
  isPresenting : Bool
  leaveTime : Option ℕ
deriving DecidableEq

structure ParticipantStats where
  totalSpeakingTime : ℤ
  totalTurns : ℕ
  averageTurnDuration : ℚ
  lastSpeakTime : Option ℕ
deriving DecidableEq

structure MeetingStatistics where
  totalTurns : ℕ
  totalSpeakingTime : ℤ
  participantStats : List (String × ParticipantStats)
deriving DecidableEq

structure LogEntry where
  timestamp : ℕ
  eventType : String
  participantId : Option String
deriving DecidableEq

structure MeetingState where
  meetingId : String
  startTime : ℕ
  endTime : Option ℕ
  status : MStatus
  participants : List (String × Participant)
  activeSpeaker : Option String
  currentTurn : Option Turn
  turnHistory : List Turn
  conversationLog : List LogEntry
  statistics : MeetingStatistics
deriving DecidableEq

structure Manager where
  meetings : List (String × MeetingState)
deriving DecidableEq

def emptyManager : Manager := ⟨[]⟩

/-- The `this.config.conversationLogLimit` (default 1000). -/
def conversationLogLimit : ℕ := 1000

/-- JS `a || b` on an optional string (`undefined` and `""` are falsy). -/
def jsOrS : Option String → String → String
  | some s, b => if s.isEmpty then b else s
  | none, b => b

structure ParticipantInfo where
  id : Option String
  displayName : Option String
  name : Option String
  email : Option String
  role : Option String
deriving DecidableEq

/-- The `participantInfo.id || participantInfo.email || participant_Date.now` -/
def computePid (info : ParticipantInfo) (now : ℕ) : String :=
  jsOrS info.id (jsOrS info.email (("participant_") ++ toString now))

structure VoiceActivityData where
  participantId : String
  isSpeaking : Bool
  confidence : ℚ
  audioLevel : ℚ
deriving DecidableEq

/-- The `logConversationEvent`: push an entry, trim to the newest
`conversationLogLimit` entries (`slice(-limit)`). -/
def pushLog (m : MeetingState) (eventType : String) (pid : Option String) (now : ℕ) :
    MeetingState :=
  let log := m.conversationLog ++ [⟨now, eventType, pid⟩]
  let log2 := if log.length > conversationLogLimit
    then log.drop (log.length - conversationLogLimit) else log
  {m with conversationLog := log2}

/-- The completed turn built by `endCurrentTurn`. -/
def closedTurn (t : Turn) (now : ℕ) : Turn :=
  {t with endTime := some now, duration := some ((now : ℤ) - (t.startTime : ℤ))}

/-- The `endCurrentTurn` body, acting on the meeting object: close the current
turn if any, append it to turn history, credit the speaker's speaking time and
per-participant statistics, add to the meeting's total speaking time and clear
`activeSpeaker` / `currentTurn`. -/
def endCurrentTurnCore (m : MeetingState) (now : ℕ) : MeetingState × Option Turn :=
  match m.currentTurn with
  | none => (m, none) -- No active turn to end
  | some currentTurn =>
    let turnDuration : ℤ := (now : ℤ) - (currentTurn.startTime : ℤ)
    let completedTurn : Turn :=
      {currentTurn with endTime := some now, duration := some turnDuration}
    let m1 := {m with turnHistory := m.turnHistory ++ [completedTurn]}
    let m2 := match alGet m1.participants currentTurn.participantId with
      | some p =>
        let p2 := {p with speakingTime := p.speakingTime + turnDuration}
        {m1 with participants := alSet m1.participants currentTurn.participantId p2}
      | none => m1
    let m3 := match alGet m2.statistics.participantStats currentTurn.participantId with
      | some ps =>
        let tst := ps.totalSpeakingTime + turnDuration
        let tt := ps.totalTurns + 1
        let entry : ParticipantStats := ⟨tst, tt, (tst : ℚ) / (tt : ℚ), some now⟩
        let stats2 := alSet m2.statistics.participantStats currentTurn.participantId entry
        {m2 with statistics := {m2.statistics with participantStats := stats2}}
      | none => m2
    let m4 := {m3 with
      statistics := {m3.statistics with
        totalSpeakingTime := m3.statistics.totalSpeakingTime + turnDuration},
      activeSpeaker := none, currentTurn := none}
    (m4, some completedTurn)

/-- The `if (meeting.currentTurn) await endCurrentTurn(...)` — close the open turn
if there is one. -/
def closeIfOpen (m : MeetingState) (now : ℕ) : MeetingState :=
  if m.currentTurn.isSome then (endCurrentTurnCore m now).1 else m

/-- The `startNewTurn` body: end the previous turn if one exists, then install the
new current turn, bump the speaker's turn count (when they are a participant)
and the meeting's total turn counter. -/
def startNewTurnCore (m : MeetingState) (participantId : String) (confidence : ℚ)
    (now : ℕ) : MeetingState :=
  let m0 := closeIfOpen m now
  let newTurn : Turn :=
    ⟨participantId, now, confidence, ("turn_") ++ toString now ++ ("_") ++ participantId,
      none, none⟩
  let m1 := {m0 with activeSpeaker := some participantId, currentTurn := some newTurn}
  let m2 := match alGet m1.participants participantId with
    | some p =>
      let p2 := {p with turnCount := p.turnCount + 1}
      {m1 with participants := alSet m1.participants participantId p2}
    | none => m1
  {m2 with statistics := {m2.statistics with totalTurns := m2.statistics.totalTurns + 1}}

/-- The `addParticipant` body on the meeting object; returns the new meeting state
and the computed participant id. -/
def addParticipantCore (m : MeetingState) (info : ParticipantInfo) (now : ℕ) :
    MeetingState × String :=
  let participantId := computePid info now
  let participant : Participant :=
    { id := participantId,
      displayName := jsOrS info.displayName (jsOrS info.name ("Unknown")),
      email := info.email,
      role := jsOrS info.role ("participant"),
      joinTime := now,
      lastActivity := now,
      status := PStatus.active,
      speakingTime := 0,
      turnCount := 0,
      isMuted := false,
      isPresenting := false,
      leaveTime := none }
  let m1 := {m with participants := alSet m.participants participantId participant}
  let stats1 := alSet m1.statistics.participantStats participantId ⟨0, 0, 0, none⟩
  let m2 := {m1 with statistics := {m1.statistics with participantStats := stats1}}
  (pushLog m2 ("participant_joined") (some participantId) now, participantId)

structure AddParticipantResult where
  success : Bool
  participantId : String
  totalParticipants : ℕ
deriving DecidableEq

def addParticipant (mgr : Manager) (meetingId : String) (info : ParticipantInfo)
    (now : ℕ) : Except String (AddParticipantResult × Manager) :=
  match alGet mgr.meetings meetingId with
  | none => Except.error ("Failed to add participant: Meeting not found")
  | some m =>
    let c := addParticipantCore m info now
    Except.ok (⟨true, c.2, c.1.participants.length⟩, ⟨alSet mgr.meetings meetingId c.1⟩)

structure InitMeetingResult where
  success : Bool
  meetingId : String
  status : MStatus
  startTime : ℕ
  participantCount : ℕ
deriving DecidableEq

/-- The `for` loop of `initializeMeeting` over the initial participants: each
iteration is an `addParticipant` call against the manager's current meeting
map; the first thrown error aborts the loop and propagates. -/
def addAllParticipants (meetingId : String) (now : ℕ) :
    Manager → List ParticipantInfo → Except String Manager
  | mgr, [] => Except.ok mgr
  | mgr, info :: rest =>
    match addParticipant mgr meetingId info now with
    | Except.error e => Except.error e
    | Except.ok r => addAllParticipants meetingId now r.2 rest

/-- The `initializeMeeting(meetingId, initialParticipants)` (named `initMeeting`
here).  Faithful to the source ordering: the fresh meeting state is inserted
into the meeting map only after the `addParticipant` loop has run, so the loop
looks the meeting up before the new state is stored. -/
def freshMeeting (meetingId : String) (now : ℕ) : MeetingState :=
  { meetingId := meetingId,
    startTime := now,
    endTime := none,
    status := MStatus.active,
    participants := [],
    activeSpeaker := none,
    currentTurn := none,
    turnHistory := [],
    conversationLog := [],
    statistics := ⟨0, 0, []⟩ }

def initMeeting (mgr : Manager) (meetingId : String) (ps : List ParticipantInfo)
    (now : ℕ) : Except String (InitMeetingResult × Manager) :=
  let meetingState : MeetingState := freshMeeting meetingId now
  match addAllParticipants meetingId now mgr ps with
  | Except.error e => Except.error (("Meeting initialization failed: ") ++ e)
  | Except.ok mgr2 =>
    Except.ok (⟨true, meetingId, MStatus.active, now, ps.length⟩,
      ⟨alSet mgr2.meetings meetingId meetingState⟩)

/-- The turn-transition branch of `handleVoiceActivity`: the `0.7` confidence
gate guards `startNewTurn`; `!isSpeaking` while being the active speaker runs
`endCurrentTurn`; otherwise nothing. -/
def hvaBranch (m : MeetingState) (v : VoiceActivityData) (now : ℕ) : MeetingState :=
  if v.isSpeaking && decide (Rat.divInt 7 10 < v.confidence) then
    startNewTurnCore m v.participantId v.confidence now
  else if (!v.isSpeaking) && decide (m.activeSpeaker = some v.participantId) then
    (endCurrentTurnCore m now).1
  else m

/-- The `handleVoiceActivity` body once meeting and participant are found: run the
turn-transition branch, then refresh the participant's `lastActivity` and log
the event. -/
def handleVoiceActivityCore (m : MeetingState) (v : VoiceActivityData) (now : ℕ) :
    MeetingState :=
  let m1 := hvaBranch m v now
  let m2 := match alGet m1.participants v.participantId with
    | some p =>
      let p2 := {p with lastActivity := now}
      {m1 with participants := alSet m1.participants v.participantId p2}
    | none => m1
  pushLog m2 ("voice_activity") (some v.participantId) now

structure VoiceActivityResult where
  success : Bool
  error : Option String
  activeSpeaker : Option String
  currentTurn : Option Turn
deriving DecidableEq

def handleVoiceActivity (mgr : Manager) (meetingId : String) (v : VoiceActivityData)
    (now : ℕ) : Except String (VoiceActivityResult × Manager) :=
  match alGet mgr.meetings meetingId with
  | none => Except.error ("Voice activity handling failed: Meeting not found")
  | some m =>
    match alGet m.participants v.participantId with
    | none => Except.ok (⟨false, some ("Participant not found"), none, none⟩, mgr)
    | some _ =>
      let m3 := handleVoiceActivityCore m v now
      Except.ok (⟨true, none, m3.activeSpeaker, m3.currentTurn⟩,
        ⟨alSet mgr.meetings meetingId m3⟩)

/-- The `removeParticipant` body once meeting and participant are found: mark the
participant `left` (never delete them), force-close the current turn if they
are the active speaker, and log the event. -/
def removeBase (m : MeetingState) (participantId : String) (p : Participant)
    (now : ℕ) : MeetingState :=
  let p2 := {p with status := PStatus.left, leaveTime := some now}
  {m with participants := alSet m.participants participantId p2}

def removeParticipantCore (m : MeetingState) (participantId : String) (p : Participant)
    (now : ℕ) : MeetingState :=
  let m1 := removeBase m participantId p now
  let m2 := if m1.activeSpeaker = some participantId then (endCurrentTurnCore m1 now).1 else m1
  pushLog m2 ("participant_left") (some participantId) now

structure RemoveParticipantResult where
  success : Bool
  participantId : String
  totalParticipants : ℕ
deriving DecidableEq

def removeParticipant (mgr : Manager) (meetingId participantId : String) (now : ℕ) :
    Except String (RemoveParticipantResult × Manager) :=
  match alGet mgr.meetings meetingId with
  | none => Except.error ("Failed to remove participant: Meeting not found")
  | some m =>
    match alGet m.participants participantId with
    | none => Except.error ("Failed to remove participant: Participant not found")
    | some p =>
      let m3 := removeParticipantCore m participantId p now
      Except.ok (⟨true, participantId,
        ((m3.participants.map fun kv => kv.2).filter fun q =>
          decide (q.status = PStatus.active)).length⟩,
        ⟨alSet mgr.meetings meetingId m3⟩)

/-- The `endMeeting` body: force-close any open turn, mark the meeting ended with
an end time, log the event. -/
def endMeetingCore (m : MeetingState) (now : ℕ) : MeetingState :=
  let m1 := closeIfOpen m now
  let m2 := {m1 with status := MStatus.ended, endTime := some now}
  pushLog m2 ("meeting_ended") none now

structure EndMeetingResult where
  success : Bool
  meetingId : String
  status : MStatus
  endTime : ℕ
deriving DecidableEq

def endMeeting (mgr : Manager) (meetingId : String) (now : ℕ) :
    Except String (EndMeetingResult × Manager) :=
  match alGet mgr.meetings meetingId with
  | none => Except.error ("Failed to end meeting: Meeting not found")
  | some m =>
    Except.ok (⟨true, meetingId, MStatus.ended, now⟩,
      ⟨alSet mgr.meetings meetingId (endMeetingCore m now)⟩)

structure StatusParticipant where
  id : String
  displayName : String
  role : String
  speakingTime : ℤ
  turnCount : ℕ
  lastActivity : ℕ
deriving DecidableEq

structure MeetingStatusResult where
  success : Bool
  meetingId : String
  status : MStatus
  startTime : ℕ
  duration : ℤ
  activeSpeaker : Option String
  currentTurn : Option Turn
  participantsTotal : ℕ
  participantsActive : ℕ
  participantsList : List StatusParticipant
  totalTurns : ℕ
  totalSpeakingTime : ℤ
  averageTurnDuration : ℚ
deriving DecidableEq

/-- The `getMeetingStatus(meetingId)`: read-only; the participant list contains
only participants whose status is `active`. -/
def getMeetingStatus (mgr : Manager) (meetingId : String) (now : ℕ) :
    Except String MeetingStatusResult :=
  match alGet mgr.meetings meetingId with
  | none => Except.error ("Failed to get meeting status: Meeting not found")
  | some m =>
    let activeParticipants := (m.participants.map fun kv => kv.2).filter fun q =>
      decide (q.status = PStatus.active)
    Except.ok
      { success := true,
        meetingId := meetingId,
        status := m.status,
        startTime := m.startTime,
        duration := (now : ℤ) - (m.startTime : ℤ),
        activeSpeaker := m.activeSpeaker,
        currentTurn := m.currentTurn,
        participantsTotal := m.participants.length,
        participantsActive := activeParticipants.length,
        participantsList := activeParticipants.map fun q =>
          ⟨q.id, q.displayName, q.role, q.speakingTime, q.turnCount, q.lastActivity⟩,
        totalTurns := m.statistics.totalTurns,
        totalSpeakingTime := m.statistics.totalSpeakingTime,
        averageTurnDuration := if m.statistics.totalTurns > 0
          then (m.statistics.totalSpeakingTime : ℚ) / (m.statistics.totalTurns : ℚ) else 0 }

/-- Direct invocation of `startNewTurn(meetingId, …)`: on a missing meeting the
body faults on `meeting.currentTurn` (TypeError), with no state change. -/
def startNewTurnOp (mgr : Manager) (meetingId participantId : String) (confidence : ℚ)
    (now : ℕ) : Except String Manager :=
  match alGet mgr.meetings meetingId with
  | none => Except.error ("TypeError: meeting is undefined")
  | some m =>
    Except.ok ⟨alSet mgr.meetings meetingId (startNewTurnCore m participantId confidence now)⟩

/-- Direct invocation of `endCurrentTurn(meetingId)`. -/
def endCurrentTurnOp (mgr : Manager) (meetingId : String) (now : ℕ) :
    Except String (Manager × Option Turn) :=
  match alGet mgr.meetings meetingId with
  | none => Except.error ("TypeError: meeting is undefined")
  | some m =>
    let r := endCurrentTurnCore m now
    Except.ok (⟨alSet mgr.meetings meetingId r.1⟩, r.2)

/-! ### Operation sequences -/

inductive MeetingOp where
  | doInitMeeting (meetingId : String) (ps : List ParticipantInfo) (now : ℕ)
  | doAddParticipant (meetingId : String) (info : ParticipantInfo) (now : ℕ)
  | doHandleVoiceActivity (meetingId : String) (v : VoiceActivityData) (now : ℕ)
  | doStartNewTurn (meetingId participantId : String) (confidence : ℚ) (now : ℕ)
  | doEndCurrentTurn (meetingId : String) (now : ℕ)
  | doRemoveParticipant (meetingId participantId : String) (now : ℕ)
  | doEndMeeting (meetingId : String) (now : ℕ)

/-- One operation against the manager.  A thrown error leaves the state
unchanged (in the source every throw happens before the first mutation). -/
def stepOp (mgr : Manager) : MeetingOp → Manager
  | .doInitMeeting mid ps now =>
    match initMeeting mgr mid ps now with
    | Except.ok r => r.2
    | Except.error _ => mgr
  | .doAddParticipant mid info now =>
    match addParticipant mgr mid info now with
    | Except.ok r => r.2
    | Except.error _ => mgr
  | .doHandleVoiceActivity mid v now =>
    match handleVoiceActivity mgr mid v now with
    | Except.ok r => r.2
    | Except.error _ => mgr
  | .doStartNewTurn mid pid conf now =>
    match startNewTurnOp mgr mid pid conf now with
    | Except.ok r => r
    | Except.error _ => mgr
  | .doEndCurrentTurn mid now =>
    match endCurrentTurnOp mgr mid now with
    | Except.ok r => r.1
    | Except.error _ => mgr
  | .doRemoveParticipant mid pid now =>
    match removeParticipant mgr mid pid now with
    | Except.ok r => r.2
    | Except.error _ => mgr
  | .doEndMeeting mid now =>
    match endMeeting mgr mid now with
    | Except.ok r => r.2
    | Except.error _ => mgr

def runOps (ops : List MeetingOp) : Manager := ops.foldl stepOp emptyManager

inductive Reachable : Manager → Prop where
  | base : Reachable emptyManager
  | step (s : Manager) (op : MeetingOp) : Reachable s → Reachable (stepOp s op)

/-! ### Invariants -/

/-- Sum of the durations of the completed turns attributed to `pid`. -/
def histSum (hist : List Turn) (pid : String) : ℤ :=
  ((hist.filter fun t => decide (t.participantId = pid)).map fun t => t.duration.getD 0).sum

/-- Sum of the durations of all completed turns. -/
def histTotal (hist : List Turn) : ℤ := (hist.map fun t => t.duration.getD 0).sum

/-- Number of open turns a meeting holds: the current turn (if open) together
with any open turn accidentally recorded in the history. -/
def openTurnCount (m : MeetingState) : ℕ :=
  ((m.currentTurn.toList ++ m.turnHistory).filter fun t => decide (t.endTime = none)).length

/-- Turn bookkeeping invariant: `activeSpeaker` mirrors the current turn's
participant, the history holds only completed turns, and the current turn is
open. -/
def turnInv (m : MeetingState) : Prop :=
  m.activeSpeaker = Option.map (fun t => t.participantId) m.currentTurn
  ∧ (∀ t ∈ m.turnHistory, t.endTime.isSome = true)
  ∧ (∀ t, m.currentTurn = some t → t.endTime = none)

/-- Speaking-time invariant of C5. -/
def speakInv (m : MeetingState) : Prop :=
  (∀ pid p, alGet m.participants pid = some p → p.speakingTime = histSum m.turnHistory pid)
  ∧ m.statistics.totalSpeakingTime = histTotal m.turnHistory

/-- Auxiliary strengthening: every turn (current or historical) belongs to a
registered participant. -/
def memberTurnsInv (m : MeetingState) : Prop :=
  (∀ t, m.currentTurn = some t → (alGet m.participants t.participantId).isSome = true)
  ∧ (∀ t ∈ m.turnHistory, (alGet m.participants t.participantId).isSome = true)

/-- A meeting-state predicate holding for every meeting of the manager. -/
def MgrInv (P : MeetingState → Prop) (mgr : Manager) : Prop :=
  ∀ mid m, alGet mgr.meetings mid = some m → P m

theorem MgrInv_alSet {P : MeetingState → Prop} {mgr : Manager} {mid : String}
    {m2 : MeetingState} (h : MgrInv P mgr) (hm : P m2) :
    MgrInv P ⟨alSet mgr.meetings mid m2⟩ := by
  intro mid2 m3 hg
  simp only [alGet_alSet] at hg
  by_cases hc : mid = mid2
  · rw [if_pos hc] at hg
    cases hg
    exact hm
  · rw [if_neg hc] at hg
    exact h mid2 m3 hg

theorem histSum_append (hist : List Turn) (t : Turn) (pid : String) :
    histSum (hist ++ [t]) pid =
      histSum hist pid + (if t.participantId = pid then t.duration.getD 0 else 0) := by
  simp only [histSum, List.filter_append]
  by_cases h : t.participantId = pid <;> simp [h]

theorem histTotal_append (hist : List Turn) (t : Turn) :
    histTotal (hist ++ [t]) = histTotal hist + t.duration.getD 0 := by
  simp [histTotal]

/-! ### Field lemmas for the operation cores -/

theorem endCore_none (m : MeetingState) (now : ℕ) (h : m.currentTurn = none) :
    endCurrentTurnCore m now = (m, none) := by
  simp [endCurrentTurnCore, h]

theorem endCore_some (m : MeetingState) (t : Turn) (now : ℕ) (h : m.currentTurn = some t) :
    (endCurrentTurnCore m now).1.currentTurn = none
    ∧ (endCurrentTurnCore m now).1.activeSpeaker = none
    ∧ (endCurrentTurnCore m now).1.turnHistory = m.turnHistory ++ [closedTurn t now]
    ∧ (endCurrentTurnCore m now).1.statistics.totalTurns = m.statistics.totalTurns
    ∧ (endCurrentTurnCore m now).1.statistics.totalSpeakingTime
        = m.statistics.totalSpeakingTime + ((now : ℤ) - (t.startTime : ℤ))
    ∧ (endCurrentTurnCore m now).1.status = m.status
    ∧ (endCurrentTurnCore m now).1.meetingId = m.meetingId
    ∧ (endCurrentTurnCore m now).2 = some (closedTurn t now) := by
  refine ⟨?_, ?_, ?_, ?_, ?_, ?_, ?_, ?_⟩ <;>
    simp only [endCurrentTurnCore, h, closedTurn] <;>
    (first
      | rfl
      | (split <;> split <;> rfl))

theorem endCore_participants (m : MeetingState) (t : Turn) (now : ℕ) (pid : String)
    (h : m.currentTurn = some t) :
    alGet (endCurrentTurnCore m now).1.participants pid =
      if pid = t.participantId
      then Option.map
        (fun p => {p with speakingTime := p.speakingTime + ((now : ℤ) - (t.startTime : ℤ))})
        (alGet m.participants pid)
      else alGet m.participants pid := by
  by_cases hpid : pid = t.participantId
  · subst hpid
    simp only [endCurrentTurnCore, h]
    cases hp : alGet m.participants t.participantId with
    | none =>
      simp only [hp]
      split <;> simp [hp]
    | some p =>
      simp only [hp]
      split <;> simp [alGet_alSet, hp]
  · have hne : ¬ t.participantId = pid := fun he => hpid he.symm
    simp only [endCurrentTurnCore, h]
    rw [if_neg hpid]
    cases hp : alGet m.participants t.participantId with
    | none =>
      simp only [hp]
      split <;> rfl
    | some p =>
      simp only [hp]
      split <;> simp [alGet_alSet, hne]

theorem closeIfOpen_none (m : MeetingState) (now : ℕ) (h : m.currentTurn = none) :
    closeIfOpen m now = m := by
  simp [closeIfOpen, h]

theorem closeIfOpen_some (m : MeetingState) (t : Turn) (now : ℕ) (h : m.currentTurn = some t) :
    closeIfOpen m now = (endCurrentTurnCore m now).1 := by
  simp [closeIfOpen, h]

theorem pushLog_fields (m : MeetingState) (ty : String) (pid : Option String) (now : ℕ) :
    (pushLog m ty pid now).currentTurn = m.currentTurn
    ∧ (pushLog m ty pid now).activeSpeaker = m.activeSpeaker
    ∧ (pushLog m ty pid now).turnHistory = m.turnHistory
    ∧ (pushLog m ty pid now).participants = m.participants
    ∧ (pushLog m ty pid now).statistics = m.statistics
    ∧ (pushLog m ty pid now).status = m.status :=
  ⟨rfl, rfl, rfl, rfl, rfl, rfl⟩

theorem startCore_fields (m : MeetingState) (pid : String) (conf : ℚ) (now : ℕ) :
    (startNewTurnCore m pid conf now).currentTurn =
      some ⟨pid, now, conf, ("turn_") ++ toString now ++ ("_") ++ pid, none, none⟩
    ∧ (startNewTurnCore m pid conf now).activeSpeaker = some pid
    ∧ (startNewTurnCore m pid conf now).turnHistory = (closeIfOpen m now).turnHistory
    ∧ (startNewTurnCore m pid conf now).statistics.totalSpeakingTime =
        (closeIfOpen m now).statistics.totalSpeakingTime
    ∧ (startNewTurnCore m pid conf now).statistics.totalTurns =
        (closeIfOpen m now).statistics.totalTurns + 1
    ∧ (startNewTurnCore m pid conf now).status = (closeIfOpen m now).status := by
  refine ⟨?_, ?_, ?_, ?_, ?_, ?_⟩ <;>
    simp only [startNewTurnCore] <;>
    (first
      | rfl
      | (split <;> rfl))

theorem startCore_participants (m : MeetingState) (pid : String) (conf : ℚ) (now : ℕ)
    (pid2 : String) :
    alGet (startNewTurnCore m pid conf now).participants pid2 =
      if pid2 = pid
      then Option.map (fun p => {p with turnCount := p.turnCount + 1})
        (alGet (closeIfOpen m now).participants pid2)
      else alGet (closeIfOpen m now).participants pid2 := by
  simp only [startNewTurnCore]
  by_cases hp2 : pid2 = pid
  · subst hp2
    rw [if_pos rfl]
    cases hp : alGet (closeIfOpen m now).participants pid2 with
    | none => simp [hp]
    | some p => simp [hp, alGet_alSet]
  · have hne : ¬ pid = pid2 := fun he => hp2 he.symm
    rw [if_neg hp2]
    cases hp : alGet (closeIfOpen m now).participants pid with
    | none => simp [hp]
    | some p => simp [hp, alGet_alSet, hne]

theorem addPCore_fields (m : MeetingState) (info : ParticipantInfo) (now : ℕ) :
    (addParticipantCore m info now).1.currentTurn = m.currentTurn
    ∧ (addParticipantCore m info now).1.activeSpeaker = m.activeSpeaker
    ∧ (addParticipantCore m info now).1.turnHistory = m.turnHistory
    ∧ (addParticipantCore m info now).1.statistics.totalSpeakingTime =
        m.statistics.totalSpeakingTime
    ∧ (addParticipantCore m info now).1.statistics.totalTurns = m.statistics.totalTurns
    ∧ (addParticipantCore m info now).1.status = m.status
    ∧ (addParticipantCore m info now).2 = computePid info now :=
  ⟨rfl, rfl, rfl, rfl, rfl, rfl, rfl⟩

theorem addPCore_participants (m : MeetingState) (info : ParticipantInfo) (now : ℕ)
    (pid2 : String) :
    alGet (addParticipantCore m info now).1.participants pid2 =
      if computePid info now = pid2
      then some
        { id := computePid info now,
          displayName := jsOrS info.displayName (jsOrS info.name ("Unknown")),
          email := info.email,
          role := jsOrS info.role ("participant"),
          joinTime := now,
          lastActivity := now,
          status := PStatus.active,
          speakingTime := 0,
          turnCount := 0,
          isMuted := false,
          isPresenting := false,
          leaveTime := none }
      else alGet m.participants pid2 := by
  simp [addParticipantCore, pushLog, alGet_alSet]

theorem hvaCore_fields (m : MeetingState) (v : VoiceActivityData) (now : ℕ) :
    (handleVoiceActivityCore m v now).currentTurn = (hvaBranch m v now).currentTurn
    ∧ (handleVoiceActivityCore m v now).activeSpeaker = (hvaBranch m v now).activeSpeaker
    ∧ (handleVoiceActivityCore m v now).turnHistory = (hvaBranch m v now).turnHistory
    ∧ (handleVoiceActivityCore m v now).statistics = (hvaBranch m v now).statistics
    ∧ (handleVoiceActivityCore m v now).status = (hvaBranch m v now).status := by
  refine ⟨?_, ?_, ?_, ?_, ?_⟩ <;>
    simp only [handleVoiceActivityCore] <;>
    (first
      | rfl
      | (split <;> rfl))

theorem hvaCore_participants (m : MeetingState) (v : VoiceActivityData) (now : ℕ)
    (pid2 : String) :
    alGet (handleVoiceActivityCore m v now).participants pid2 =
      if pid2 = v.participantId
      then Option.map (fun p => {p with lastActivity := now})
        (alGet (hvaBranch m v now).participants pid2)
      else alGet (hvaBranch m v now).participants pid2 := by
  simp only [handleVoiceActivityCore]
  by_cases hp2 : pid2 = v.participantId
  · subst hp2
    rw [if_pos rfl]
    cases hp : alGet (hvaBranch m v now).participants v.participantId with
    | none => simp [pushLog, hp]
    | some p => simp [pushLog, hp, alGet_alSet]
  · have hne : ¬ v.participantId = pid2 := fun he => hp2 he.symm
    rw [if_neg hp2]
    cases hp : alGet (hvaBranch m v now).participants v.participantId with
    | none => simp [pushLog, hp]
    | some p => simp [pushLog, hp, alGet_alSet, hne]

theorem removeBase_fields (m : MeetingState) (pid : String) (p : Participant) (now : ℕ) :
    (removeBase m pid p now).currentTurn = m.currentTurn
    ∧ (removeBase m pid p now).activeSpeaker = m.activeSpeaker
    ∧ (removeBase m pid p now).turnHistory = m.turnHistory
    ∧ (removeBase m pid p now).statistics = m.statistics
    ∧ (removeBase m pid p now).status = m.status :=
  ⟨rfl, rfl, rfl, rfl, rfl⟩

theorem removeBase_participants (m : MeetingState) (pid : String) (p : Participant)
    (now : ℕ) (pid2 : String) :
    alGet (removeBase m pid p now).participants pid2 =
      if pid = pid2
      then some {p with status := PStatus.left, leaveTime := some now}
      else alGet m.participants pid2 := by
  simp [removeBase, alGet_alSet]

/-- The `turnInv` only looks at the turn-related fields. -/
theorem turnInv_of_fields {a b : MeetingState} (hc : a.currentTurn = b.currentTurn)
    (ha : a.activeSpeaker = b.activeSpeaker) (hh : a.turnHistory = b.turnHistory)
    (h : turnInv b) : turnInv a := by
  unfold turnInv
  rw [hc, ha, hh]
  exact h

theorem turnInv_endCore (m : MeetingState) (now : ℕ) (h : turnInv m) :
    turnInv (endCurrentTurnCore m now).1 := by
  cases hct : m.currentTurn with
  | none =>
    rw [endCore_none m now hct]
    exact h
  | some t =>
    obtain ⟨h1, h2, h3⟩ := h
    obtain ⟨e1, e2, e3, _, _, _, _, _⟩ := endCore_some m t now hct
    refine ⟨?_, ?_, ?_⟩
    · rw [e2, e1]
      rfl
    · rw [e3]
      intro t2 ht2
      rcases List.mem_append.mp ht2 with hh | hh
      · exact h2 t2 hh
      · simp only [List.mem_singleton] at hh
        subst hh
        simp [closedTurn]
    · rw [e1]
      intro t2 ht2
      simp at ht2

theorem turnInv_closeIfOpen (m : MeetingState) (now : ℕ) (h : turnInv m) :
    turnInv (closeIfOpen m now) := by
  cases hct : m.currentTurn with
  | none => rw [closeIfOpen_none m now hct]; exact h
  | some t => rw [closeIfOpen_some m t now hct]; exact turnInv_endCore m now h

theorem turnInv_startCore (m : MeetingState) (pid : String) (conf : ℚ) (now : ℕ)
    (h : turnInv m) : turnInv (startNewTurnCore m pid conf now) := by
  obtain ⟨f1, f2, f3, _, _, _⟩ := startCore_fields m pid conf now
  have hbase := turnInv_closeIfOpen m now h
  refine ⟨?_, ?_, ?_⟩
  · rw [f2, f1]
    rfl
  · rw [f3]
    exact hbase.2.1
  · rw [f1]
    intro t2 ht2
    cases ht2
    rfl

theorem turnInv_hvaBranch (m : MeetingState) (v : VoiceActivityData) (now : ℕ)
    (h : turnInv m) : turnInv (hvaBranch m v now) := by
  unfold hvaBranch
  split
  · exact turnInv_startCore m v.participantId v.confidence now h
  · split
    · exact turnInv_endCore m now h
    · exact h

theorem turnInv_hvaCore (m : MeetingState) (v : VoiceActivityData) (now : ℕ)
    (h : turnInv m) : turnInv (handleVoiceActivityCore m v now) := by
  obtain ⟨f1, f2, f3, _, _⟩ := hvaCore_fields m v now
  exact turnInv_of_fields f1 f2 f3 (turnInv_hvaBranch m v now h)

theorem turnInv_addPCore (m : MeetingState) (info : ParticipantInfo) (now : ℕ)
    (h : turnInv m) : turnInv (addParticipantCore m info now).1 := by
  obtain ⟨f1, f2, f3, _, _, _, _⟩ := addPCore_fields m info now
  exact turnInv_of_fields f1 f2 f3 h

theorem turnInv_pushLog (m : MeetingState) (ty : String) (pid : Option String) (now : ℕ)
    (h : turnInv m) : turnInv (pushLog m ty pid now) :=
  turnInv_of_fields rfl rfl rfl h

theorem turnInv_removeCore (m : MeetingState) (pid : String) (p : Participant) (now : ℕ)
    (h : turnInv m) : turnInv (removeParticipantCore m pid p now) := by
  have h1 : turnInv (removeBase m pid p now) := turnInv_of_fields rfl rfl rfl h
  have h2 : turnInv (if (removeBase m pid p now).activeSpeaker = some pid
      then (endCurrentTurnCore (removeBase m pid p now) now).1
      else removeBase m pid p now) := by
    split
    · exact turnInv_endCore _ now h1
    · exact h1
  exact turnInv_pushLog _ _ _ _ h2

theorem turnInv_endMeetingCore (m : MeetingState) (now : ℕ) (h : turnInv m) :
    turnInv (endMeetingCore m now) := by
  have h1 := turnInv_closeIfOpen m now h
  have h2 : turnInv {closeIfOpen m now with status := MStatus.ended, endTime := some now} :=
    turnInv_of_fields rfl rfl rfl h1
  exact turnInv_pushLog _ _ _ _ h2

theorem turnInv_freshMeeting (mid : String) (now : ℕ) : turnInv (freshMeeting mid now) := by
  refine ⟨rfl, ?_, ?_⟩
  · intro t ht
    simp [freshMeeting] at ht
  · intro t ht
    simp [freshMeeting] at ht

/-! ### Inversion of the operations on success -/

theorem addParticipant_ok {mgr : Manager} {mid : String} {info : ParticipantInfo}
    {now : ℕ} {r : AddParticipantResult × Manager}
    (h : addParticipant mgr mid info now = Except.ok r) :
    ∃ m, alGet mgr.meetings mid = some m ∧
      r.2 = ⟨alSet mgr.meetings mid (addParticipantCore m info now).1⟩ := by
  revert h
  unfold addParticipant
  cases hm : alGet mgr.meetings mid with
  | none => intro h; cases h
  | some m =>
    intro h
    cases h
    exact ⟨m, rfl, rfl⟩

theorem initMeeting_ok {mgr : Manager} {mid : String} {ps : List ParticipantInfo}
    {now : ℕ} {r : InitMeetingResult × Manager}
    (h : initMeeting mgr mid ps now = Except.ok r) :
    ∃ mgr2, addAllParticipants mid now mgr ps = Except.ok mgr2 ∧
      r.2 = ⟨alSet mgr2.meetings mid (freshMeeting mid now)⟩ := by
  revert h
  unfold initMeeting
  cases ha : addAllParticipants mid now mgr ps with
  | error e => intro h; cases h
  | ok mgr2 =>
    intro h
    cases h
    exact ⟨mgr2, rfl, rfl⟩

theorem handleVoiceActivity_ok {mgr : Manager} {mid : String} {v : VoiceActivityData}
    {now : ℕ} {r : VoiceActivityResult × Manager}
    (h : handleVoiceActivity mgr mid v now = Except.ok r) :
    r.2 = mgr ∨
      ∃ m, alGet mgr.meetings mid = some m
        ∧ (alGet m.participants v.participantId).isSome = true
        ∧ r.2 = ⟨alSet mgr.meetings mid (handleVoiceActivityCore m v now)⟩ := by
  unfold handleVoiceActivity at h
  cases hm : alGet mgr.meetings mid with
  | none =>
    simp only [hm] at h
    simp at h
  | some m =>
    simp only [hm] at h
    cases hp : alGet m.participants v.participantId with
    | none =>
      simp only [hp] at h
      cases h
      exact Or.inl rfl
    | some p =>
      simp only [hp] at h
      cases h
      exact Or.inr ⟨m, rfl, by simp [hp], rfl⟩

theorem removeParticipant_ok {mgr : Manager} {mid pid : String} {now : ℕ}
    {r : RemoveParticipantResult × Manager}
    (h : removeParticipant mgr mid pid now = Except.ok r) :
    ∃ m p, alGet mgr.meetings mid = some m ∧ alGet m.participants pid = some p ∧
      r.2 = ⟨alSet mgr.meetings mid (removeParticipantCore m pid p now)⟩ := by
  unfold removeParticipant at h
  cases hm : alGet mgr.meetings mid with
  | none =>
    simp only [hm] at h
    simp at h
  | some m =>
    simp only [hm] at h
    cases hp : alGet m.participants pid with
    | none =>
      simp only [hp] at h
      simp at h
    | some p =>
      simp only [hp] at h
      cases h
      exact ⟨m, p, rfl, hp, rfl⟩

theorem endMeeting_ok {mgr : Manager} {mid : String} {now : ℕ}
    {r : EndMeetingResult × Manager}
    (h : endMeeting mgr mid now = Except.ok r) :
    ∃ m, alGet mgr.meetings mid = some m ∧
      r.2 = ⟨alSet mgr.meetings mid (endMeetingCore m now)⟩ := by
  revert h
  unfold endMeeting
  cases hm : alGet mgr.meetings mid with
  | none => intro h; cases h
  | some m =>
    intro h
    cases h
    exact ⟨m, rfl, rfl⟩

theorem startNewTurnOp_ok {mgr : Manager} {mid pid : String} {conf : ℚ} {now : ℕ}
    {r : Manager} (h : startNewTurnOp mgr mid pid conf now = Except.ok r) :
    ∃ m, alGet mgr.meetings mid = some m ∧
      r = ⟨alSet mgr.meetings mid (startNewTurnCore m pid conf now)⟩ := by
  revert h
  unfold startNewTurnOp
  cases hm : alGet mgr.meetings mid with
  | none => intro h; cases h
  | some m =>
    intro h
    cases h
    exact ⟨m, rfl, rfl⟩

theorem endCurrentTurnOp_ok {mgr : Manager} {mid : String} {now : ℕ}
    {r : Manager × Option Turn} (h : endCurrentTurnOp mgr mid now = Except.ok r) :
    ∃ m, alGet mgr.meetings mid = some m ∧
      r.1 = ⟨alSet mgr.meetings mid (endCurrentTurnCore m now).1⟩ := by
  revert h
  unfold endCurrentTurnOp
  cases hm : alGet mgr.meetings mid with
  | none => intro h; cases h
  | some m =>
    intro h
    cases h
    exact ⟨m, rfl, rfl⟩

/-- The `addAllParticipants` preserves any per-meeting invariant preserved by
`addParticipantCore`. -/
theorem addAll_MgrInv {P : MeetingState → Prop}
    (hP : ∀ m info now2, P m → P (addParticipantCore m info now2).1) :
    ∀ (ps : List ParticipantInfo) (mid : String) (now : ℕ) (mgr mgr2 : Manager),
      MgrInv P mgr → addAllParticipants mid now mgr ps = Except.ok mgr2 → MgrInv P mgr2 := by
  intro ps
  induction ps with
  | nil =>
    intro mid now mgr mgr2 h hok
    cases hok
    exact h
  | cons info rest ih =>
    intro mid now mgr mgr2 h hok
    revert hok
    unfold addAllParticipants
    cases hadd : addParticipant mgr mid info now with
    | error e => intro hok; cases hok
    | ok r =>
      intro hok
      obtain ⟨m, hm, hr⟩ := addParticipant_ok hadd
      have h2 : MgrInv P r.2 := by
        rw [hr]
        exact MgrInv_alSet h (hP m info now (h mid m hm))
      exact ih mid now r.2 mgr2 h2 hok

/-- Every operation preserves the turn bookkeeping invariant on all meetings. -/
theorem MgrInv_turnInv_step (mgr : Manager) (op : MeetingOp) (h : MgrInv turnInv mgr) :
    MgrInv turnInv (stepOp mgr op) := by
  cases op with
  | doInitMeeting mid ps now =>
    simp only [stepOp]
    cases hres : initMeeting mgr mid ps now with
    | error e => exact h
    | ok r =>
      obtain ⟨mgr2, ha, hr⟩ := initMeeting_ok hres
      show MgrInv turnInv r.2
      rw [hr]
      exact MgrInv_alSet
        (addAll_MgrInv (fun m info now2 hm => turnInv_addPCore m info now2 hm)
          ps mid now mgr mgr2 h ha)
        (turnInv_freshMeeting mid now)
  | doAddParticipant mid info now =>
    simp only [stepOp]
    cases hres : addParticipant mgr mid info now with
    | error e => exact h
    | ok r =>
      obtain ⟨m, hm, hr⟩ := addParticipant_ok hres
      show MgrInv turnInv r.2
      rw [hr]
      exact MgrInv_alSet h (turnInv_addPCore m info now (h mid m hm))
  | doHandleVoiceActivity mid v now =>
    simp only [stepOp]
    cases hres : handleVoiceActivity mgr mid v now with
    | error e => exact h
    | ok r =>
      rcases handleVoiceActivity_ok hres with hr | ⟨m, hm, _, hr⟩
      · show MgrInv turnInv r.2
        rw [hr]; exact h
      · show MgrInv turnInv r.2
        rw [hr]
        exact MgrInv_alSet h (turnInv_hvaCore m v now (h mid m hm))
  | doStartNewTurn mid pid conf now =>
    simp only [stepOp]
    cases hres : startNewTurnOp mgr mid pid conf now with
    | error e => exact h
    | ok r =>
      obtain ⟨m, hm, hr⟩ := startNewTurnOp_ok hres
      show MgrInv turnInv r
      rw [hr]
      exact MgrInv_alSet h (turnInv_startCore m pid conf now (h mid m hm))
  | doEndCurrentTurn mid now =>
    simp only [stepOp]
    cases hres : endCurrentTurnOp mgr mid now with
    | error e => exact h
    | ok r =>
      obtain ⟨m, hm, hr⟩ := endCurrentTurnOp_ok hres
      show MgrInv turnInv r.1
      rw [hr]
      exact MgrInv_alSet h (turnInv_endCore m now (h mid m hm))
  | doRemoveParticipant mid pid now =>
    simp only [stepOp]
    cases hres : removeParticipant mgr mid pid now with
    | error e => exact h
    | ok r =>
      obtain ⟨m, p, hm, hp, hr⟩ := removeParticipant_ok hres
      show MgrInv turnInv r.2
      rw [hr]
      exact MgrInv_alSet h (turnInv_removeCore m pid p now (h mid m hm))
  | doEndMeeting mid now =>
    simp only [stepOp]
    cases hres : endMeeting mgr mid now with
    | error e => exact h
    | ok r =>
      obtain ⟨m, hm, hr⟩ := endMeeting_ok hres
      show MgrInv turnInv r.2
      rw [hr]
      exact MgrInv_alSet h (turnInv_endMeetingCore m now (h mid m hm))

theorem MgrInv_turnInv_reachable (mgr : Manager) (h : Reachable mgr) :
    MgrInv turnInv mgr := by
  induction h with
  | base =>
    intro mid m hm
    simp [emptyManager, alGet] at hm
  | step s op hs ih => exact MgrInv_turnInv_step s op ih

/-- C1: in every reachable manager state and after any sequence of operations,
every meeting holds at most one open turn, and `activeSpeaker` is non-null iff
`currentTurn` is non-null, in which case `activeSpeaker` equals
`currentTurn.participantId` (expressed as
`activeSpeaker = currentTurn.map participantId`). -/
theorem c1_turn_invariant (mgr : Manager) (h : Reachable mgr) :
    ∀ mid m, alGet mgr.meetings mid = some m →
      openTurnCount m ≤ 1
      ∧ m.activeSpeaker = Option.map (fun t => t.participantId) m.currentTurn := by
  intro mid m hm
  obtain ⟨h1, h2, h3⟩ := MgrInv_turnInv_reachable mgr h mid m hm
  refine ⟨?_, h1⟩
  unfold openTurnCount
  rw [List.filter_append]
  have hh : m.turnHistory.filter (fun t => decide (t.endTime = none)) = [] := by
    refine List.filter_eq_nil.mpr ?_
    intro t ht
    have h4 := h2 t ht
    simp only [Option.isSome_iff_exists] at h4
    obtain ⟨x, hx⟩ := h4
    simp [hx]
  rw [hh]
  cases hct : m.currentTurn with
  | none => simp
  | some t =>
    have h5 := h3 t hct
    simp [hct, h5]

def c1OpsEx : List MeetingOp :=
  [MeetingOp.doInitMeeting ("m") [] 0,
   MeetingOp.doStartNewTurn ("m") ("p1") (Rat.divInt 9 10) 5]

def c1MgrEx : Manager := runOps c1OpsEx

def c1MeetingEx : MeetingState := (alGet c1MgrEx.meetings ("m")).getD (freshMeeting ("m") 0)

/-- Witness for C1 at a concrete reachable state holding an open turn. -/
theorem c1_turn_invariant_witness :
    openTurnCount c1MeetingEx ≤ 1
    ∧ c1MeetingEx.activeSpeaker =
        Option.map (fun t => t.participantId) c1MeetingEx.currentTurn :=
  c1_turn_invariant c1MgrEx
    (Reachable.step (stepOp emptyManager (MeetingOp.doInitMeeting ("m") [] 0))
      (MeetingOp.doStartNewTurn ("m") ("p1") (Rat.divInt 9 10) 5)
      (Reachable.step emptyManager (MeetingOp.doInitMeeting ("m") [] 0) Reachable.base))
    ("m") c1MeetingEx rfl

def p1Info : ParticipantInfo := ⟨some ("p1"), some ("P One"), none, none, none⟩

def p2Info : ParticipantInfo := ⟨some ("p2"), some ("P Two"), none, none, none⟩

/-- C2 (code bug): `initializeMeeting` inserts the fresh meeting into the
meeting map only after running the `addParticipant` loop, so initialising a
new meeting with a non-empty participant list throws (wrapped)
`Meeting not found` instead of succeeding and registering the participants;
the subsequent scenario of the claim can therefore never run.  The
repository's own debug script expects exactly this call to succeed. -/
theorem c2_init_meeting_bug :
    initMeeting emptyManager ("m1") [p1Info, p2Info] 0 =
      Except.error
        ("Meeting initialization failed: Failed to add participant: Meeting not found") :=
  rfl

/-- The meeting state after a successful `handleVoiceActivity` call. -/
def meetingAfterHVA (mgr : Manager) (mid : String) (v : VoiceActivityData) (now : ℕ) :
    Option MeetingState :=
  match handleVoiceActivity mgr mid v now with
  | Except.ok r => alGet r.2.meetings mid
  | Except.error _ => none

/-- C10: when participant `pid` already holds the open turn, a further
speaking report from `pid` itself with confidence above 0.7 does not continue
the open turn: the open turn is closed and appended to the history, a fresh
turn for `pid` starting at `now` is opened, and both the participant's
`turnCount` and the meeting's `totalTurns` are incremented. -/
theorem c10_self_interrupt (mgr : Manager) (mid : String) (m : MeetingState)
    (pid : String) (t : Turn) (p : Participant) (conf lvl : ℚ) (now : ℕ)
    (hm : alGet mgr.meetings mid = some m)
    (hct : m.currentTurn = some t)
    (hpid : t.participantId = pid)
    (hp : alGet m.participants pid = some p)
    (hconf : Rat.divInt 7 10 < conf) :
    (meetingAfterHVA mgr mid ⟨pid, true, conf, lvl⟩ now).map (fun m2 => m2.turnHistory)
        = some (m.turnHistory ++ [closedTurn t now])
    ∧ (meetingAfterHVA mgr mid ⟨pid, true, conf, lvl⟩ now).map
        (fun m2 => m2.currentTurn.map (fun t2 => t2.participantId)) = some (some pid)
    ∧ (meetingAfterHVA mgr mid ⟨pid, true, conf, lvl⟩ now).map
        (fun m2 => m2.currentTurn.map (fun t2 => t2.startTime)) = some (some now)
    ∧ (meetingAfterHVA mgr mid ⟨pid, true, conf, lvl⟩ now).map
        (fun m2 => (alGet m2.participants pid).map (fun q => q.turnCount))
        = some (some (p.turnCount + 1))
    ∧ (meetingAfterHVA mgr mid ⟨pid, true, conf, lvl⟩ now).map
        (fun m2 => m2.statistics.totalTurns) = some (m.statistics.totalTurns + 1) := by
  have hafter : meetingAfterHVA mgr mid ⟨pid, true, conf, lvl⟩ now
      = some (handleVoiceActivityCore m ⟨pid, true, conf, lvl⟩ now) := by
    unfold meetingAfterHVA handleVoiceActivity
    simp only [hm, hp, alGet_alSet]
    simp
  have hbranch : hvaBranch m ⟨pid, true, conf, lvl⟩ now = startNewTurnCore m pid conf now := by
    simp [hvaBranch, hconf]
  have hclose := closeIfOpen_some m t now hct
  obtain ⟨e1, e2, e3, e4, e5, e6, e7, e8⟩ := endCore_some m t now hct
  obtain ⟨hf1, hf2, hf3, hf4, hf5⟩ := hvaCore_fields m ⟨pid, true, conf, lvl⟩ now
  obtain ⟨s1, s2, s3, s4, s5, s6⟩ := startCore_fields m pid conf now
  have hpt : pid = t.participantId := hpid.symm
  rw [hafter]
  refine ⟨?_, ?_, ?_, ?_, ?_⟩
  · simp only [Option.map_some']
    rw [hf3, hbranch, s3, hclose, e3]
  · simp only [Option.map_some']
    rw [hf1, hbranch, s1]
    rfl
  · simp only [Option.map_some']
    rw [hf1, hbranch, s1]
    rfl
  · simp only [Option.map_some']
    rw [hvaCore_participants m ⟨pid, true, conf, lvl⟩ now pid, hbranch,
      startCore_participants m pid conf now pid, hclose,
      endCore_participants m t now pid hct, hp]
    simp [hpt]
  · simp only [Option.map_some']
    rw [hf4, hbranch, s5, hclose, e4]

def c10Participant : Participant :=
  ⟨("p1"), ("P One"), none, ("participant"), 0, 0, PStatus.active, 0, 1, false, false, none⟩

def c10Turn : Turn := ⟨("p1"), 1000, Rat.divInt 9 10, ("turn1"), none, none⟩

def c10Meeting : MeetingState :=
  { meetingId := ("m"),
    startTime := 0,
    endTime := none,
    status := MStatus.active,
    participants := [(("p1"), c10Participant)],
    activeSpeaker := some ("p1"),
    currentTurn := some c10Turn,
    turnHistory := [],
    conversationLog := [],
    statistics := ⟨1, 0, [(("p1"), ⟨0, 0, 0, none⟩)]⟩ }

def c10Mgr : Manager := ⟨[(("m"), c10Meeting)]⟩

/-- Witness for C10: `p1` holds the open turn and reports speaking again with
confidence 0.9 at t=3000. -/
theorem c10_self_interrupt_witness :
    (meetingAfterHVA c10Mgr ("m") ⟨("p1"), true, Rat.divInt 9 10, 0⟩ 3000).map
        (fun m2 => m2.turnHistory)
        = some (c10Meeting.turnHistory ++ [closedTurn c10Turn 3000])
    ∧ (meetingAfterHVA c10Mgr ("m") ⟨("p1"), true, Rat.divInt 9 10, 0⟩ 3000).map
        (fun m2 => m2.currentTurn.map (fun t2 => t2.participantId)) = some (some ("p1"))
    ∧ (meetingAfterHVA c10Mgr ("m") ⟨("p1"), true, Rat.divInt 9 10, 0⟩ 3000).map
        (fun m2 => m2.currentTurn.map (fun t2 => t2.startTime)) = some (some 3000)
    ∧ (meetingAfterHVA c10Mgr ("m") ⟨("p1"), true, Rat.divInt 9 10, 0⟩ 3000).map
        (fun m2 => (alGet m2.participants ("p1")).map (fun q => q.turnCount))
        = some (some (c10Participant.turnCount + 1))
    ∧ (meetingAfterHVA c10Mgr ("m") ⟨("p1"), true, Rat.divInt 9 10, 0⟩ 3000).map
        (fun m2 => m2.statistics.totalTurns) = some (c10Meeting.statistics.totalTurns + 1) :=
  c10_self_interrupt c10Mgr ("m") c10Meeting ("p1") c10Turn c10Participant
    (Rat.divInt 9 10) 0 3000 rfl rfl rfl rfl (by decide)

/-! ### Association-list facts under unique keys (for C8) -/

theorem alGet_none_keys {α : Type} {l : List (String × α)} {k : String}
    (h : alGet l k = none) : ∀ kv ∈ l, kv.1 ≠ k := by
  induction l with
  | nil => intro kv hkv; simp at hkv
  | cons hd tl ih =>
    obtain ⟨k2, w⟩ := hd
    intro kv hkv
    by_cases h2 : k2 = k
    · simp [alGet, h2] at h
    · simp only [alGet, h2, if_false] at h
      rcases List.mem_cons.mp hkv with hkv | hkv
      · subst hkv; exact h2
      · exact ih h kv hkv

theorem alSet_keys_sub {α : Type} {l : List (String × α)} {k : String} {v : α} {x : String}
    (h : x ∈ (alSet l k v).map Prod.fst) : x ∈ l.map Prod.fst ∨ x = k := by
  obtain ⟨kv, hkv, hx⟩ := List.mem_map.mp h
  rcases alSet_mem hkv with h1 | h1
  · right; rw [← hx, h1]
  · left; exact List.mem_map.mpr ⟨kv, h1, hx⟩

theorem alSet_nodup {α : Type} {l : List (String × α)} {k : String} {v : α}
    (hnd : (l.map Prod.fst).Nodup) : ((alSet l k v).map Prod.fst).Nodup := by
  induction l with
  | nil => simp [alSet]
  | cons hd tl ih =>
    obtain ⟨k2, w⟩ := hd
    by_cases h2 : k2 = k
    · subst h2
      simp only [alSet, if_pos rfl]
      simpa using hnd
    · simp only [alSet, h2, if_false, List.map_cons, List.nodup_cons] at hnd ⊢
      refine ⟨?_, ih hnd.2⟩
      intro hmem
      rcases alSet_keys_sub hmem with h3 | h3
      · exact hnd.1 h3
      · exact h2 h3

theorem alSet_mem_nodup {α : Type} {l : List (String × α)} {k : String} {v : α}
    {kv : String × α} (hnd : (l.map Prod.fst).Nodup) (h : kv ∈ alSet l k v) :
    kv = (k, v) ∨ (kv ∈ l ∧ kv.1 ≠ k) := by
  induction l with
  | nil =>
    simp [alSet] at h
    exact Or.inl (by simp [h])
  | cons hd tl ih =>
    obtain ⟨k2, w⟩ := hd
    simp only [List.map_cons, List.nodup_cons] at hnd
    by_cases h2 : k2 = k
    · subst h2
      simp only [alSet, if_pos rfl] at h
      rcases List.mem_cons.mp h with h3 | h3
      · exact Or.inl h3
      · right
        refine ⟨List.mem_cons_of_mem _ h3, ?_⟩
        intro hk
        exact hnd.1 (hk ▸ List.mem_map.mpr ⟨kv, h3, rfl⟩)
    · simp only [alSet, h2, if_false] at h
      rcases List.mem_cons.mp h with h3 | h3
      · subst h3
        exact Or.inr ⟨List.mem_cons_self _ _, h2⟩
      · rcases ih hnd.2 h3 with h4 | h4
        · exact Or.inl h4
        · exact Or.inr ⟨List.mem_cons_of_mem _ h4.1, h4.2⟩

/-- The participant map after `endCurrentTurn` is either untouched or a single
in-place update of the speaker's entry. -/
theorem endCore_participants_shape (m : MeetingState) (t : Turn) (now : ℕ)
    (h : m.currentTurn = some t) :
    (endCurrentTurnCore m now).1.participants = m.participants
    ∨ ∃ p, alGet m.participants t.participantId = some p ∧
        (endCurrentTurnCore m now).1.participants
          = alSet m.participants t.participantId
              ({p with speakingTime := p.speakingTime + ((now : ℤ) - (t.startTime : ℤ))}) := by
  simp only [endCurrentTurnCore, h]
  cases hp : alGet m.participants t.participantId with
  | none =>
    left
    simp only [hp]
    split <;> rfl
  | some p =>
    right
    refine ⟨p, rfl, ?_⟩
    simp only [hp]
    split <;> rfl

/-- The meeting state after a successful `removeParticipant` call. -/
def afterRemove (mgr : Manager) (mid pid : String) (now : ℕ) : Option MeetingState :=
  match removeParticipant mgr mid pid now with
  | Except.ok r => alGet r.2.meetings mid
  | Except.error _ => none

/-- The status report after a successful `removeParticipant` call. -/
def statusAfterRemove (mgr : Manager) (mid pid : String) (now now2 : ℕ) :
    Option MeetingStatusResult :=
  match removeParticipant mgr mid pid now with
  | Except.ok r =>
    match getMeetingStatus r.2 mid now2 with
    | Except.ok st => some st
    | Except.error _ => none
  | Except.error _ => none

theorem getMeetingStatus_fields (mgr : Manager) (mid : String) (now : ℕ) (m : MeetingState)
    (hm : alGet mgr.meetings mid = some m) :
    ∃ st, getMeetingStatus mgr mid now = Except.ok st ∧
      st.participantsList =
        ((m.participants.map fun kv => kv.2).filter fun q =>
          decide (q.status = PStatus.active)).map
            (fun q => ⟨q.id, q.displayName, q.role, q.speakingTime, q.turnCount,
              q.lastActivity⟩) := by
  unfold getMeetingStatus
  simp only [hm]
  exact ⟨_, rfl, rfl⟩

/-- C8: removing the current active speaker force-closes their open turn
(appending it to the turn history), marks them `left` without deleting them,
clears the current turn, and a subsequent `getMeetingStatus` excludes them from
the active participant list while the turn history still contains their
completed turn.  The hypotheses `hnodup`/`hids` state that the participant map
is well-formed (unique keys, each value's `id` equal to its key), which holds
for every map built by the manager's own operations. -/
theorem c8_remove_active_speaker (mgr : Manager) (mid pid : String) (m : MeetingState)
    (t : Turn) (p : Participant) (now now2 : ℕ)
    (hm : alGet mgr.meetings mid = some m)
    (hp : alGet m.participants pid = some p)
    (has : m.activeSpeaker = some pid)
    (hct : m.currentTurn = some t)
    (hpid : t.participantId = pid)
    (hnodup : (m.participants.map Prod.fst).Nodup)
    (hids : ∀ kv ∈ m.participants, kv.2.id = kv.1) :
    (afterRemove mgr mid pid now).map
        (fun m2 => (alGet m2.participants pid).map (fun q => q.status))
        = some (some PStatus.left)
    ∧ (afterRemove mgr mid pid now).map (fun m2 => m2.currentTurn) = some none
    ∧ (afterRemove mgr mid pid now).map (fun m2 => m2.turnHistory)
        = some (m.turnHistory ++ [closedTurn t now])
    ∧ (afterRemove mgr mid pid now).map
        (fun m2 => m2.turnHistory.any (fun t2 => decide (t2.participantId = pid)))
        = some true
    ∧ (statusAfterRemove mgr mid pid now now2).map
        (fun st => st.participantsList.all (fun e => !(decide (e.id = pid)))) = some true := by
  have hpt : pid = t.participantId := hpid.symm
  have hm1as : (removeBase m pid p now).activeSpeaker = some pid := has
  have hm1ct : (removeBase m pid p now).currentTurn = some t := hct
  have hcore : removeParticipantCore m pid p now
      = pushLog (endCurrentTurnCore (removeBase m pid p now) now).1
          ("participant_left") (some pid) now := by
    simp [removeParticipantCore, hm1as]
  have hafter : afterRemove mgr mid pid now = some (removeParticipantCore m pid p now) := by
    unfold afterRemove removeParticipant
    simp only [hm, hp, alGet_alSet]
    simp
  obtain ⟨f1, f2, f3, f4, f5, f6, f7, f8⟩ :=
    endCore_some (removeBase m pid p now) t now hm1ct
  -- every entry of the final participant map is either marked left or is an
  -- untouched entry with a key other than pid
  have hm3shape : ∀ kv ∈ (removeParticipantCore m pid p now).participants,
      kv.2.status = PStatus.left ∨ (kv ∈ m.participants ∧ kv.1 ≠ pid) := by
    rw [hcore]
    intro kv hkv
    have hkv2 : kv ∈ (endCurrentTurnCore (removeBase m pid p now) now).1.participants := hkv
    have hbase : (removeBase m pid p now).participants
        = alSet m.participants pid ({p with status := PStatus.left, leaveTime := some now}) :=
      rfl
    rcases endCore_participants_shape (removeBase m pid p now) t now hm1ct with hsh | ⟨p3, hp3, hsh⟩
    · rw [hsh, hbase] at hkv2
      rcases alSet_mem_nodup hnodup hkv2 with h1 | h1
      · left; rw [h1]
      · exact Or.inr ⟨h1.1, h1.2⟩
    · rw [hsh] at hkv2
      have hp3v : p3 = {p with status := PStatus.left, leaveTime := some now} := by
        have h9 := removeBase_participants m pid p now t.participantId
        rw [if_pos hpt] at h9
        rw [h9] at hp3
        exact (Option.some.inj hp3).symm
      have hnd1 : (((removeBase m pid p now).participants).map Prod.fst).Nodup := by
        rw [hbase]
        exact alSet_nodup hnodup
      rcases alSet_mem_nodup hnd1 hkv2 with h1 | h1
      · left
        rw [h1, hp3v]
      · rw [hbase] at h1
        rcases alSet_mem_nodup hnodup h1.1 with h2 | h2
        · left; rw [h2]
        · refine Or.inr ⟨h2.1, ?_⟩
          rw [← hpt] at h1
          exact h1.2
  refine ⟨?_, ?_, ?_, ?_, ?_⟩
  · rw [hafter]
    simp only [Option.map_some']
    rw [hcore]
    have hpp : (pushLog (endCurrentTurnCore (removeBase m pid p now) now).1
        ("participant_left") (some pid) now).participants
        = (endCurrentTurnCore (removeBase m pid p now) now).1.participants := rfl
    rw [hpp, endCore_participants (removeBase m pid p now) t now pid hm1ct, if_pos hpt]
    have hrb := removeBase_participants m pid p now pid
    rw [if_pos rfl] at hrb
    rw [hrb]
    rfl
  · rw [hafter]
    simp only [Option.map_some']
    rw [hcore]
    have hpp : (pushLog (endCurrentTurnCore (removeBase m pid p now) now).1
        ("participant_left") (some pid) now).currentTurn
        = (endCurrentTurnCore (removeBase m pid p now) now).1.currentTurn := rfl
    rw [hpp, f1]
  · rw [hafter]
    simp only [Option.map_some']
    rw [hcore]
    have hpp : (pushLog (endCurrentTurnCore (removeBase m pid p now) now).1
        ("participant_left") (some pid) now).turnHistory
        = (endCurrentTurnCore (removeBase m pid p now) now).1.turnHistory := rfl
    rw [hpp, f3]
    rfl
  · rw [hafter]
    simp only [Option.map_some']
    rw [hcore]
    have hpp : (pushLog (endCurrentTurnCore (removeBase m pid p now) now).1
        ("participant_left") (some pid) now).turnHistory
        = (endCurrentTurnCore (removeBase m pid p now) now).1.turnHistory := rfl
    rw [hpp, f3]
    simp [closedTurn, hpid]
  · have hsar : statusAfterRemove mgr mid pid now now2 =
        match getMeetingStatus
          (⟨alSet mgr.meetings mid (removeParticipantCore m pid p now)⟩ : Manager) mid now2 with
        | Except.ok st => some st
        | Except.error _ => none := by
      unfold statusAfterRemove removeParticipant
      simp only [hm, hp]
    have hm3get : alGet
        (⟨alSet mgr.meetings mid (removeParticipantCore m pid p now)⟩ : Manager).meetings mid
        = some (removeParticipantCore m pid p now) := by
      simp [alGet_alSet]
    obtain ⟨st, hstat, hlist⟩ :=
      getMeetingStatus_fields _ mid now2 (removeParticipantCore m pid p now) hm3get
    rw [hsar, hstat]
    simp only [Option.map_some', Option.some.injEq]
    refine List.all_eq_true.mpr ?_
    intro e he
    rw [hlist] at he
    obtain ⟨q, hq, hqe⟩ := List.mem_map.mp he
    have hqa := List.mem_filter.mp hq
    obtain ⟨kv, hkv, hq2⟩ := List.mem_map.mp hqa.1
    have hactive : q.status = PStatus.active := by
      have := hqa.2
      simpa using this
    rcases hm3shape kv hkv with hL | ⟨hmem, hne⟩
    · exfalso
      rw [hq2, hactive] at hL
      cases hL
    · have hid : q.id = kv.1 := by
        rw [← hq2]
        exact hids kv hmem
      rw [← hqe]
      simp [hid, hne]

def c8Participant : Participant :=
  ⟨("p1"), ("P One"), none, ("participant"), 0, 0, PStatus.active, 0, 1, false, false, none⟩

def c8Turn : Turn := ⟨("p1"), 1000, Rat.divInt 9 10, ("turn1"), none, none⟩

def c8Meeting : MeetingState :=
  { meetingId := ("m"),
    startTime := 0,
    endTime := none,
    status := MStatus.active,
    participants := [(("p1"), c8Participant)],
    activeSpeaker := some ("p1"),
    currentTurn := some c8Turn,
    turnHistory := [],
    conversationLog := [],
    statistics := ⟨1, 0, [(("p1"), ⟨0, 0, 0, none⟩)]⟩ }

def c8Mgr : Manager := ⟨[(("m"), c8Meeting)]⟩

/-- Witness for C8: `p1` is the active speaker with an open turn and is
removed at t=4000; the status query runs at t=5000. -/
theorem c8_remove_active_speaker_witness :
    (afterRemove c8Mgr ("m") ("p1") 4000).map
        (fun m2 => (alGet m2.participants ("p1")).map (fun q => q.status))
        = some (some PStatus.left)
    ∧ (afterRemove c8Mgr ("m") ("p1") 4000).map (fun m2 => m2.currentTurn) = some none
    ∧ (afterRemove c8Mgr ("m") ("p1") 4000).map (fun m2 => m2.turnHistory)
        = some (c8Meeting.turnHistory ++ [closedTurn c8Turn 4000])
    ∧ (afterRemove c8Mgr ("m") ("p1") 4000).map
        (fun m2 => m2.turnHistory.any (fun t2 => decide (t2.participantId = ("p1"))))
        = some true
    ∧ (statusAfterRemove c8Mgr ("m") ("p1") 4000 5000).map
        (fun st => st.participantsList.all (fun e => !(decide (e.id = ("p1"))))) = some true :=
  c8_remove_active_speaker c8Mgr ("m") ("p1") c8Meeting c8Turn c8Participant 4000 5000
    rfl rfl rfl rfl rfl (by decide) (by decide)

/-! ### The speaking-time invariant (C5)

The invariant fails on sequences that re-add (rejoin) an existing participant
id, because `addParticipant` overwrites the entry with a fresh
`speakingTime = 0` while the turn history is retained.  `ReachableJoinOnce`
restricts sequences to the public lifecycle operations in which every
`addParticipant` call introduces a fresh participant id. -/

/-- Restriction on an operation: the internal turn helpers are not invoked
directly, and `addParticipant` never reuses an id already present in the
target meeting. -/
def joinOnceOp (s : Manager) : MeetingOp → Prop
  | MeetingOp.doStartNewTurn _ _ _ _ => False
  | MeetingOp.doEndCurrentTurn _ _ => False
  | MeetingOp.doAddParticipant mid info now =>
      ∀ m, alGet s.meetings mid = some m → alGet m.participants (computePid info now) = none
  | _ => True

inductive ReachableJoinOnce : Manager → Prop where
  | base : ReachableJoinOnce emptyManager
  | step (s : Manager) (op : MeetingOp) : ReachableJoinOnce s → joinOnceOp s op →
      ReachableJoinOnce (stepOp s op)

/-- The speaking-time invariant together with its inductive strengthening. -/
def SInv (m : MeetingState) : Prop := speakInv m ∧ memberTurnsInv m

theorem histSum_zero_of_absent (hist : List Turn) (pid : String)
    (h : ∀ t ∈ hist, t.participantId ≠ pid) : histSum hist pid = 0 := by
  unfold histSum
  have h2 : hist.filter (fun t => decide (t.participantId = pid)) = [] :=
    List.filter_eq_nil.mpr (by intro t ht; simpa using h t ht)
  rw [h2]
  rfl

theorem endCore_participants_isSome (m : MeetingState) (t : Turn) (now : ℕ) (pid : String)
    (h : m.currentTurn = some t) :
    (alGet (endCurrentTurnCore m now).1.participants pid).isSome
      = (alGet m.participants pid).isSome := by
  rw [endCore_participants m t now pid h]
  split <;> simp

theorem startCore_participants_isSome (m : MeetingState) (pid : String) (conf : ℚ)
    (now : ℕ) (pid2 : String) :
    (alGet (startNewTurnCore m pid conf now).participants pid2).isSome
      = (alGet (closeIfOpen m now).participants pid2).isSome := by
  rw [startCore_participants m pid conf now pid2]
  split <;> simp

theorem hvaCore_participants_isSome (m : MeetingState) (v : VoiceActivityData) (now : ℕ)
    (pid2 : String) :
    (alGet (handleVoiceActivityCore m v now).participants pid2).isSome
      = (alGet (hvaBranch m v now).participants pid2).isSome := by
  rw [hvaCore_participants m v now pid2]
  split <;> simp

/-- The `SInv` only looks at participants, turns, history and statistics. -/
theorem SInv_of_fields {a b : MeetingState} (hp : a.participants = b.participants)
    (hc : a.currentTurn = b.currentTurn) (hh : a.turnHistory = b.turnHistory)
    (hs : a.statistics = b.statistics) (h : SInv b) : SInv a := by
  unfold SInv speakInv memberTurnsInv
  rw [hp, hc, hh, hs]
  exact h

theorem SInv_endCore (m : MeetingState) (now : ℕ) (h : SInv m) :
    SInv (endCurrentTurnCore m now).1 := by
  obtain ⟨⟨hs1, hs2⟩, hm1, hm2⟩ := h
  cases hct : m.currentTurn with
  | none =>
    rw [endCore_none m now hct]
    exact ⟨⟨hs1, hs2⟩, hm1, hm2⟩
  | some t =>
    obtain ⟨e1, e2, e3, e4, e5, e6, e7, e8⟩ := endCore_some m t now hct
    refine ⟨⟨?_, ?_⟩, ?_, ?_⟩
    · intro pid2 p2 hp2
      rw [endCore_participants m t now pid2 hct] at hp2
      rw [e3, histSum_append]
      by_cases hc : pid2 = t.participantId
      · rw [if_pos hc] at hp2
        cases hpold : alGet m.participants pid2 with
        | none =>
          rw [hpold] at hp2
          cases hp2
        | some pold =>
          rw [hpold] at hp2
          simp only [Option.map_some'] at hp2
          cases hp2
          have hcc : t.participantId = pid2 := hc.symm
          simp [closedTurn, hcc, hs1 pid2 pold hpold]
      · rw [if_neg hc] at hp2
        have hcc : ¬ t.participantId = pid2 := fun he => hc he.symm
        simp only [closedTurn, hcc, if_false]
        rw [add_zero]
        exact hs1 pid2 p2 hp2
    · rw [e5, e3, histTotal_append, hs2]
      simp [closedTurn]
    · intro t2 ht2
      rw [e1] at ht2
      cases ht2
    · intro t2 ht2
      rw [e3] at ht2
      rcases List.mem_append.mp ht2 with hh | hh
      · rw [endCore_participants_isSome m t now t2.participantId hct]
        exact hm2 t2 hh
      · simp only [List.mem_singleton] at hh
        subst hh
        rw [endCore_participants_isSome m t now _ hct]
        exact hm1 t hct

theorem SInv_closeIfOpen (m : MeetingState) (now : ℕ) (h : SInv m) :
    SInv (closeIfOpen m now) := by
  cases hct : m.currentTurn with
  | none => rw [closeIfOpen_none m now hct]; exact h
  | some t => rw [closeIfOpen_some m t now hct]; exact SInv_endCore m now h

theorem closeIfOpen_participants_isSome (m : MeetingState) (now : ℕ) (pid2 : String) :
    (alGet (closeIfOpen m now).participants pid2).isSome
      = (alGet m.participants pid2).isSome := by
  cases hct : m.currentTurn with
  | none => rw [closeIfOpen_none m now hct]
  | some t =>
    rw [closeIfOpen_some m t now hct]
    exact endCore_participants_isSome m t now pid2 hct

theorem SInv_startCore (m : MeetingState) (pid : String) (conf : ℚ) (now : ℕ)
    (h : SInv m) (hpp : (alGet m.participants pid).isSome = true) :
    SInv (startNewTurnCore m pid conf now) := by
  obtain ⟨⟨hs1, hs2⟩, hm1c, hm2c⟩ := SInv_closeIfOpen m now h
  obtain ⟨s1, s2, s3, s4, s5, s6⟩ := startCore_fields m pid conf now
  have hppc : (alGet (closeIfOpen m now).participants pid).isSome = true := by
    rw [closeIfOpen_participants_isSome m now pid]
    exact hpp
  refine ⟨⟨?_, ?_⟩, ?_, ?_⟩
  · intro pid2 p2 hp2
    rw [startCore_participants m pid conf now pid2] at hp2
    rw [s3]
    by_cases hc : pid2 = pid
    · rw [if_pos hc] at hp2
      cases hpold : alGet (closeIfOpen m now).participants pid2 with
      | none =>
        rw [hpold] at hp2
        cases hp2
      | some pold =>
        rw [hpold] at hp2
        simp only [Option.map_some'] at hp2
        cases hp2
        simpa using hs1 pid2 pold hpold
    · rw [if_neg hc] at hp2
      exact hs1 pid2 p2 hp2
  · rw [s4, s3]
    exact hs2
  · intro t2 ht2
    rw [s1] at ht2
    cases ht2
    show (alGet (startNewTurnCore m pid conf now).participants pid).isSome = true
    rw [startCore_participants_isSome m pid conf now pid]
    exact hppc
  · intro t2 ht2
    rw [s3] at ht2
    rw [startCore_participants_isSome m pid conf now t2.participantId]
    exact hm2c t2 ht2

theorem SInv_hvaBranch (m : MeetingState) (v : VoiceActivityData) (now : ℕ)
    (h : SInv m) (hpp : (alGet m.participants v.participantId).isSome = true) :
    SInv (hvaBranch m v now) := by
  unfold hvaBranch
  split
  · exact SInv_startCore m v.participantId v.confidence now h hpp
  · split
    · exact SInv_endCore m now h
    · exact h

theorem SInv_hvaCore (m : MeetingState) (v : VoiceActivityData) (now : ℕ)
    (h : SInv m) (hpp : (alGet m.participants v.participantId).isSome = true) :
    SInv (handleVoiceActivityCore m v now) := by
  obtain ⟨⟨hs1, hs2⟩, hm1b, hm2b⟩ := SInv_hvaBranch m v now h hpp
  obtain ⟨hf1, hf2, hf3, hf4, hf5⟩ := hvaCore_fields m v now
  refine ⟨⟨?_, ?_⟩, ?_, ?_⟩
  · intro pid2 p2 hp2
    rw [hvaCore_participants m v now pid2] at hp2
    rw [hf3]
    by_cases hc : pid2 = v.participantId
    · rw [if_pos hc] at hp2
      cases hpold : alGet (hvaBranch m v now).participants pid2 with
      | none =>
        rw [hpold] at hp2
        cases hp2
      | some pold =>
        rw [hpold] at hp2
        simp only [Option.map_some'] at hp2
        cases hp2
        simpa using hs1 pid2 pold hpold
    · rw [if_neg hc] at hp2
      exact hs1 pid2 p2 hp2
  · rw [hf4, hf3]
    exact hs2
  · intro t2 ht2
    rw [hf1] at ht2
    rw [hvaCore_participants_isSome m v now t2.participantId]
    exact hm1b t2 ht2
  · intro t2 ht2
    rw [hf3] at ht2
    rw [hvaCore_participants_isSome m v now t2.participantId]
    exact hm2b t2 ht2

theorem SInv_addPCore (m : MeetingState) (info : ParticipantInfo) (now : ℕ)
    (h : SInv m) (hfresh : alGet m.participants (computePid info now) = none) :
    SInv (addParticipantCore m info now).1 := by
  obtain ⟨⟨hs1, hs2⟩, hm1, hm2⟩ := h
  obtain ⟨a1, a2, a3, a4, a5, a6, a7⟩ := addPCore_fields m info now
  have habs : ∀ t ∈ m.turnHistory, t.participantId ≠ computePid info now := by
    intro t ht he
    have h9 := hm2 t ht
    rw [he, hfresh] at h9
    simp at h9
  have hmono : ∀ pid2, (alGet m.participants pid2).isSome = true →
      (alGet (addParticipantCore m info now).1.participants pid2).isSome = true := by
    intro pid2 h9
    rw [addPCore_participants m info now pid2]
    split
    · simp
    · exact h9
  refine ⟨⟨?_, ?_⟩, ?_, ?_⟩
  · intro pid2 p2 hp2
    rw [addPCore_participants m info now pid2] at hp2
    rw [a3]
    by_cases hc : computePid info now = pid2
    · rw [if_pos hc] at hp2
      cases hp2
      subst hc
      exact (histSum_zero_of_absent m.turnHistory (computePid info now) habs).symm
    · rw [if_neg hc] at hp2
      exact hs1 pid2 p2 hp2
  · rw [a4, a3]
    exact hs2
  · intro t2 ht2
    rw [a1] at ht2
    exact hmono t2.participantId (hm1 t2 ht2)
  · intro t2 ht2
    rw [a3] at ht2
    exact hmono t2.participantId (hm2 t2 ht2)

theorem SInv_removeCore (m : MeetingState) (pid : String) (p : Participant) (now : ℕ)
    (h : SInv m) (hp : alGet m.participants pid = some p) :
    SInv (removeParticipantCore m pid p now) := by
  obtain ⟨⟨hs1, hs2⟩, hm1, hm2⟩ := h
  have hbase : SInv (removeBase m pid p now) := by
    refine ⟨⟨?_, ?_⟩, ?_, ?_⟩
    · intro pid2 p2 hp2
      rw [removeBase_participants m pid p now pid2] at hp2
      show p2.speakingTime = histSum m.turnHistory pid2
      by_cases hc : pid = pid2
      · rw [if_pos hc] at hp2
        cases hp2
        subst hc
        simpa using hs1 pid p hp
      · rw [if_neg hc] at hp2
        exact hs1 pid2 p2 hp2
    · exact hs2
    · intro t2 ht2
      show (alGet (removeBase m pid p now).participants t2.participantId).isSome = true
      rw [removeBase_participants m pid p now t2.participantId]
      split
      · simp
      · exact hm1 t2 ht2
    · intro t2 ht2
      show (alGet (removeBase m pid p now).participants t2.participantId).isSome = true
      rw [removeBase_participants m pid p now t2.participantId]
      split
      · simp
      · exact hm2 t2 ht2
  have h2 : SInv (if (removeBase m pid p now).activeSpeaker = some pid
      then (endCurrentTurnCore (removeBase m pid p now) now).1
      else removeBase m pid p now) := by
    split
    · exact SInv_endCore _ now hbase
    · exact hbase
  exact SInv_of_fields rfl rfl rfl rfl h2

theorem SInv_endMeetingCore (m : MeetingState) (now : ℕ) (h : SInv m) :
    SInv (endMeetingCore m now) := by
  have h1 := SInv_closeIfOpen m now h
  have h2 : SInv {closeIfOpen m now with status := MStatus.ended, endTime := some now} :=
    SInv_of_fields rfl rfl rfl rfl h1
  exact SInv_of_fields rfl rfl rfl rfl h2

theorem SInv_freshMeeting (mid : String) (now : ℕ) : SInv (freshMeeting mid now) := by
  refine ⟨⟨?_, rfl⟩, ?_, ?_⟩
  · intro pid2 p2 hp2
    simp [freshMeeting, alGet] at hp2
  · intro t2 ht2
    simp [freshMeeting] at ht2
  · intro t2 ht2
    simp [freshMeeting] at ht2

/-- The `addAllParticipants` only touches the binding of its own meeting id. -/
theorem addAll_other :
    ∀ (ps : List ParticipantInfo) (mid : String) (now : ℕ) (mgr mgr2 : Manager),
      addAllParticipants mid now mgr ps = Except.ok mgr2 →
      ∀ mid2, mid ≠ mid2 → alGet mgr2.meetings mid2 = alGet mgr.meetings mid2 := by
  intro ps
  induction ps with
  | nil =>
    intro mid now mgr mgr2 hok mid2 hne
    cases hok
    rfl
  | cons info rest ih =>
    intro mid now mgr mgr2 hok mid2 hne
    revert hok
    unfold addAllParticipants
    cases hadd : addParticipant mgr mid info now with
    | error e => intro hok; cases hok
    | ok r =>
      intro hok
      obtain ⟨m, hm, hr⟩ := addParticipant_ok hadd
      have h9 := ih mid now r.2 mgr2 hok mid2 hne
      rw [h9, hr]
      simp [alGet_alSet, hne]

/-- Under the join-once restriction every operation preserves `SInv` on all
meetings. -/
theorem MgrInv_SInv_step (mgr : Manager) (op : MeetingOp) (hop : joinOnceOp mgr op)
    (h : MgrInv SInv mgr) : MgrInv SInv (stepOp mgr op) := by
  cases op with
  | doInitMeeting mid ps now =>
    simp only [stepOp]
    cases hres : initMeeting mgr mid ps now with
    | error e => exact h
    | ok r =>
      obtain ⟨mgr2, ha, hr⟩ := initMeeting_ok hres
      show MgrInv SInv r.2
      rw [hr]
      intro mid2 m2 hget
      simp only [alGet_alSet] at hget
      by_cases hc : mid = mid2
      · rw [if_pos hc] at hget
        cases hget
        exact SInv_freshMeeting mid now
      · rw [if_neg hc] at hget
        rw [addAll_other ps mid now mgr mgr2 ha mid2 hc] at hget
        exact h mid2 m2 hget
  | doAddParticipant mid info now =>
    simp only [stepOp]
    cases hres : addParticipant mgr mid info now with
    | error e => exact h
    | ok r =>
      obtain ⟨m, hm, hr⟩ := addParticipant_ok hres
      show MgrInv SInv r.2
      rw [hr]
      exact MgrInv_alSet h (SInv_addPCore m info now (h mid m hm) (hop m hm))
  | doHandleVoiceActivity mid v now =>
    simp only [stepOp]
    cases hres : handleVoiceActivity mgr mid v now with
    | error e => exact h
    | ok r =>
      rcases handleVoiceActivity_ok hres with hr | ⟨m, hm, hpp, hr⟩
      · show MgrInv SInv r.2
        rw [hr]
        exact h
      · show MgrInv SInv r.2
        rw [hr]
        exact MgrInv_alSet h (SInv_hvaCore m v now (h mid m hm) hpp)
  | doStartNewTurn mid pid conf now => exact hop.elim
  | doEndCurrentTurn mid now => exact hop.elim
  | doRemoveParticipant mid pid now =>
    simp only [stepOp]
    cases hres : removeParticipant mgr mid pid now with
    | error e => exact h
    | ok r =>
      obtain ⟨m, p, hm, hp, hr⟩ := removeParticipant_ok hres
      show MgrInv SInv r.2
      rw [hr]
      exact MgrInv_alSet h (SInv_removeCore m pid p now (h mid m hm) hp)
  | doEndMeeting mid now =>
    simp only [stepOp]
    cases hres : endMeeting mgr mid now with
    | error e => exact h
    | ok r =>
      obtain ⟨m, hm, hr⟩ := endMeeting_ok hres
      show MgrInv SInv r.2
      rw [hr]
      exact MgrInv_alSet h (SInv_endMeetingCore m now (h mid m hm))

theorem MgrInv_SInv_joinOnce (mgr : Manager) (h : ReachableJoinOnce mgr) :
    MgrInv SInv mgr := by
  induction h with
  | base =>
    intro mid m hm
    simp [emptyManager, alGet] at hm
  | step s op hs hop ih => exact MgrInv_SInv_step s op hop ih

def c5P1 : ParticipantInfo := ⟨some ("p1"), some ("P One"), none, none, none⟩

def c5Op1 : MeetingOp := MeetingOp.doInitMeeting ("m") [] 0

def c5Op2 : MeetingOp := MeetingOp.doAddParticipant ("m") c5P1 0

def c5Op3 : MeetingOp :=
  MeetingOp.doHandleVoiceActivity ("m") ⟨("p1"), true, Rat.divInt 9 10, 0⟩ 1000

def c5Op4 : MeetingOp :=
  MeetingOp.doHandleVoiceActivity ("m") ⟨("p1"), false, Rat.divInt 9 10, 0⟩ 3000

/-- Initialise, join `p1`, speak from t=1000 to t=3000 (one completed turn of
2000 ms), then re-add (`rejoin`) `p1` at t=4000. -/
def c5RejoinOps : List MeetingOp :=
  [c5Op1, c5Op2, c5Op3, c5Op4, MeetingOp.doAddParticipant ("m") c5P1 4000]

/-- C5 counterexample: after the rejoin sequence, `p1`'s reported cumulative
speaking time is 0 while the meeting's turn history still attributes a
completed turn of 2000 ms to `p1` — re-adding an existing participant resets
`speakingTime` without clearing the history, so the claimed invariant fails
over unrestricted operation sequences. -/
theorem c5_rejoin_cex :
    (alGet (runOps c5RejoinOps).meetings ("m")).map (fun m =>
      ((alGet m.participants ("p1")).map (fun p => p.speakingTime),
        histSum m.turnHistory ("p1"))) = some (some 0, 2000) := rfl

/-- C5 (amended): over sequences of the public lifecycle operations in which
no `addParticipant` call reuses an id already present in the meeting, every
participant's reported cumulative speaking time equals the sum of the
durations of the completed turns attributed to them in the turn history, and
the meeting's total speaking time equals the sum of all completed-turn
durations. -/
theorem c5_speaking_time (mgr : Manager) (h : ReachableJoinOnce mgr) :
    ∀ mid m, alGet mgr.meetings mid = some m →
      (∀ pid p, alGet m.participants pid = some p →
        p.speakingTime = histSum m.turnHistory pid)
      ∧ m.statistics.totalSpeakingTime = histTotal m.turnHistory := by
  intro mid m hm
  exact (MgrInv_SInv_joinOnce mgr h mid m hm).1

def c5OkOps : List MeetingOp := [c5Op1, c5Op2, c5Op3, c5Op4]

def c5MgrEx : Manager := runOps c5OkOps

def defaultParticipant : Participant :=
  ⟨(""), (""), none, (""), 0, 0, PStatus.active, 0, 0, false, false, none⟩

def c5MeetingEx : MeetingState := (alGet c5MgrEx.meetings ("m")).getD (freshMeeting ("m") 0)

def c5ParticipantEx : Participant :=
  (alGet c5MeetingEx.participants ("p1")).getD defaultParticipant

theorem c5MgrEx_reachable : ReachableJoinOnce c5MgrEx :=
  ReachableJoinOnce.step (stepOp (stepOp (stepOp emptyManager c5Op1) c5Op2) c5Op3) c5Op4
    (ReachableJoinOnce.step (stepOp (stepOp emptyManager c5Op1) c5Op2) c5Op3
      (ReachableJoinOnce.step (stepOp emptyManager c5Op1) c5Op2
        (ReachableJoinOnce.step emptyManager c5Op1 ReachableJoinOnce.base trivial)
        (by intro m hm; cases hm; rfl))
      trivial)
    trivial

/-- Witness for C5 (amended) at the concrete join-once state after one
completed 2000 ms turn. -/
theorem c5_speaking_time_witness :
    c5ParticipantEx.speakingTime = histSum c5MeetingEx.turnHistory ("p1")
    ∧ c5MeetingEx.statistics.totalSpeakingTime = histTotal c5MeetingEx.turnHistory :=
  ⟨(c5_speaking_time c5MgrEx c5MgrEx_reachable ("m") c5MeetingEx rfl).1
      ("p1") c5ParticipantEx rfl,
   (c5_speaking_time c5MgrEx c5MgrEx_reachable ("m") c5MeetingEx rfl).2⟩

end Teams
